import Mathlib

set_option maxHeartbeats 1000000
set_option maxRecDepth 4000

/-!
Shallow embedding of the rectangle-decomposition engine and SVG serializer of
the img-2-svg converter.  The RGBA engine is taken from
`src/image_processor.go` (first document: `ColorRGBA`, `findOptimalBlocks`,
`findMaxWidthRGBA`, `findMaxHeightRGBA`, `expandBlockRGBA`, `markBlockUsed`,
`createColorGrid`), the historical packed-uint32 engine from the second
document of the same file, and the serializer from the SVG writer with
transparency support (`WriteBlocks`, `writeBlock`, `optimizeColor`,
`hexChar`).  Machine integers (uint8/uint32/uint64/int) are modelled as `Nat`
with explicit `% 2^w` where Go performs a narrowing conversion; all loop
counters in the engine start at 0 and only increase, so `Nat` is faithful.
-/

/-- Quantized color of one pixel: four 8-bit channels (source type `ColorRGBA`). -/
structure ColorRGBA where
  R : Nat
  G : Nat
  B : Nat
  A : Nat
deriving DecidableEq

/-- Rectangle emitted by the RGBA engine (source type `Block`, RGBA variant). -/
structure Block where
  X : Nat
  Y : Nat
  Width : Nat
  Height : Nat
  R : Nat
  G : Nat
  B : Nat
  A : Nat
deriving DecidableEq

/-- Pixel grid, indexed `g row col` (source: `grid[y][x]`). -/
abbrev Grid := Nat → Nat → ColorRGBA

/-- Used mask, indexed `u row col` (source: `used[y][x]`). -/
abbrev Mask := Nat → Nat → Bool

/-- Pack RGBA into a single integer (source: `ColorRGBA.ToUint64`,
`uint64(c.R)<<24 | uint64(c.G)<<16 | uint64(c.B)<<8 | uint64(c.A)`). -/
def ColorRGBA.ToUint64 (c : ColorRGBA) : Nat :=
  c.R <<< 24 ||| c.G <<< 16 ||| c.B <<< 8 ||| c.A

/-- Loop of `findMaxWidthRGBA`: `width` grows while the next cell of row `y`
equals `color` (source: `for x+width < maxX && grid[y][x+width] == color`). -/
def findMaxWidthGo (g : Grid) (x y : Nat) (color : ColorRGBA) (maxX width : Nat) : Nat :=
  if h : x + width < maxX ∧ g y (x + width) = color then
    findMaxWidthGo g x y color maxX (width + 1)
  else width
termination_by maxX - (x + width)
decreasing_by omega

/-- Source `findMaxWidthRGBA(grid, x, y, color, maxX)`: the run width starts at 1. -/
def findMaxWidthRGBA (g : Grid) (x y : Nat) (color : ColorRGBA) (maxX : Nat) : Nat :=
  findMaxWidthGo g x y color maxX 1

/-- Loop of `findMaxHeightRGBA`: `hgt` grows while the whole next row segment
of length `width` equals `color` (source: inner loop over `i < width` checking
`grid[y+height][x+i] != color`). -/
def findMaxHeightGo (g : Grid) (x y : Nat) (color : ColorRGBA) (width maxY hgt : Nat) : Nat :=
  if h : y + hgt < maxY ∧ ∀ i, i < width → g (y + hgt) (x + i) = color then
    findMaxHeightGo g x y color width maxY (hgt + 1)
  else hgt
termination_by maxY - (y + hgt)
decreasing_by omega

/-- Source `findMaxHeightRGBA(grid, x, y, color, width, maxY)`: height starts at 1. -/
def findMaxHeightRGBA (g : Grid) (x y : Nat) (color : ColorRGBA) (width maxY : Nat) : Nat :=
  findMaxHeightGo g x y color width maxY 1

/-- Source `expandBlockRGBA(grid, used, x, y, width, height, color, maxX, maxY)`:
alternately try to grow one column to the right (all cells of the new column
unused and equal to `color`) and one row downward (all cells of the new row,
at the already-updated width, unused and equal to `color`), until neither
direction can grow.  One recursion step is one iteration of the source's
`for { ... if !expanded break }` loop. -/
def expandBlockRGBA (g : Grid) (u : Mask) (x y width hgt : Nat) (color : ColorRGBA)
    (maxX maxY : Nat) : Nat × Nat :=
  if hw : x + width < maxX ∧
      ∀ i, i < hgt → u (y + i) (x + width) = false ∧ g (y + i) (x + width) = color then
    expandBlockRGBA g u x y (width + 1)
      (if y + hgt < maxY ∧
          (∀ i, i < width + 1 → u (y + hgt) (x + i) = false ∧ g (y + hgt) (x + i) = color) then
        hgt + 1
      else hgt) color maxX maxY
  else if hh : y + hgt < maxY ∧
      ∀ i, i < width → u (y + hgt) (x + i) = false ∧ g (y + hgt) (x + i) = color then
    expandBlockRGBA g u x y width (hgt + 1) color maxX maxY
  else (width, hgt)
termination_by (maxX - (x + width)) + (maxY - (y + hgt))
decreasing_by
  · split <;> omega
  · omega

/-- Source `markBlockUsed(used, x, y, width, height)`: set every cell of the
rectangle to used, clipped at the mask dimensions (`i < len(used)`,
`j < len(used[i])`). -/
def markBlockUsed (gridH gridW : Nat) (u : Mask) (x y width hgt : Nat) : Mask :=
  fun j i =>
    if y ≤ j ∧ j < y + hgt ∧ j < gridH ∧ x ≤ i ∧ i < x + width ∧ i < gridW then true
    else u j i

/-- Source inline statement `used[y][x] = true` (transparent-pixel skip). -/
def setUsed (u : Mask) (y x : Nat) : Mask :=
  fun j i => if j = y ∧ i = x then true else u j i

/-- The extent `(expandedWidth, expandedHeight)` computed for the seed cell
`(x, y)`: maximal horizontal run, then maximal vertical extent at that width,
then greedy two-directional expansion (source `findOptimalBlocks`, lines
computing `maxWidth`, `maxHeight`, `expandedWidth, expandedHeight`). -/
def seedExtent (g : Grid) (u : Mask) (w h x y : Nat) : Nat × Nat :=
  expandBlockRGBA g u x y (findMaxWidthRGBA g x y (g y x) w)
    (findMaxHeightRGBA g x y (g y x) (findMaxWidthRGBA g x y (g y x) w) h) (g y x) w h

lemma findMaxWidthGo_ge (g : Grid) (x y : Nat) (c : ColorRGBA) (maxX : Nat) :
    ∀ width, width ≤ findMaxWidthGo g x y c maxX width := by
  intro width
  induction width using findMaxWidthGo.induct g x y c maxX with
  | case1 width h ih =>
    rw [findMaxWidthGo, dif_pos h]
    omega
  | case2 width h =>
    rw [findMaxWidthGo, dif_neg h]

lemma expandBlockRGBA_ge (g : Grid) (u : Mask) (x y : Nat) (c : ColorRGBA) (maxX maxY : Nat) :
    ∀ width hgt, width ≤ (expandBlockRGBA g u x y width hgt c maxX maxY).1 ∧
      hgt ≤ (expandBlockRGBA g u x y width hgt c maxX maxY).2 := by
  intro width hgt
  induction width, hgt, c, maxX, maxY using expandBlockRGBA.induct g u x y with
  | case1 width hgt color maxX maxY hw ih =>
    rw [expandBlockRGBA, dif_pos hw]
    constructor
    · exact le_trans (by omega) ih.1
    · refine le_trans ?_ ih.2
      split <;> omega
  | case2 width hgt color maxX maxY hw hh ih =>
    rw [expandBlockRGBA, dif_neg hw, dif_pos hh]
    exact ⟨ih.1, le_trans (by omega) ih.2⟩
  | case3 width hgt color maxX maxY hw hh =>
    rw [expandBlockRGBA, dif_neg hw, dif_neg hh]
    exact ⟨le_rfl, le_rfl⟩

lemma seedExtent_fst_pos (g : Grid) (u : Mask) (w h x y : Nat) :
    1 ≤ (seedExtent g u w h x y).1 := by
  unfold seedExtent
  exact le_trans (findMaxWidthGo_ge g x y (g y x) w 1)
    (expandBlockRGBA_ge g u x y (g y x) w h _ _).1

/-- Loop body of `findOptimalBlocks` (RGBA variant): scan rows top to bottom,
columns left to right; skip used cells; mark-and-skip fully transparent cells
(`color.A == 0`); otherwise emit the block for the seed's expanded extent,
mark it used, and advance the column cursor past the block
(`x += expandedWidth - 1` followed by the loop's `x++`). -/
def fobGo (g : Grid) (w h : Nat) (y x : Nat) (u : Mask) (acc : List Block) : List Block :=
  if hy : h ≤ y then acc
  else if hx : w ≤ x then fobGo g w h (y + 1) 0 u acc
  else if hu : u y x then fobGo g w h y (x + 1) u acc
  else if ha : (g y x).A = 0 then fobGo g w h y (x + 1) (setUsed u y x) acc
  else
    fobGo g w h y (x + (seedExtent g u w h x y).1)
      (markBlockUsed h w u x y (seedExtent g u w h x y).1 (seedExtent g u w h x y).2)
      (acc ++ [⟨x, y, (seedExtent g u w h x y).1, (seedExtent g u w h x y).2,
        (g y x).R, (g y x).G, (g y x).B, (g y x).A⟩])
termination_by (h - y, w - x)
decreasing_by
  · exact Prod.Lex.left _ _ (by omega)
  · exact Prod.Lex.right _ (by omega)
  · exact Prod.Lex.right _ (by omega)
  · exact Prod.Lex.right _ (by have := seedExtent_fst_pos g u w h x y; omega)

/-- Source `findOptimalBlocks(grid, width, height)` (RGBA variant): run the
scan from the top-left corner with an all-false used mask and no blocks. -/
def findOptimalBlocks (g : Grid) (w h : Nat) : List Block :=
  fobGo g w h 0 0 (fun _ _ => false) []

/-- Fuel-indexed mirror of `findMaxWidthGo`, structurally recursive so that the
kernel can evaluate concrete instances; agrees with it when the fuel covers
the loop measure. -/
def findMaxWidthGoF (g : Grid) (x y : Nat) (color : ColorRGBA) (maxX : Nat) :
    Nat → Nat → Nat
  | 0, width => width
  | fuel + 1, width =>
    if x + width < maxX ∧ g y (x + width) = color then
      findMaxWidthGoF g x y color maxX fuel (width + 1)
    else width

lemma findMaxWidthGoF_eq (g : Grid) (x y : Nat) (c : ColorRGBA) (maxX : Nat) :
    ∀ fuel width, maxX ≤ x + width + fuel →
      findMaxWidthGoF g x y c maxX fuel width = findMaxWidthGo g x y c maxX width := by
  intro fuel
  induction fuel with
  | zero =>
    intro width hf
    rw [findMaxWidthGoF, findMaxWidthGo, dif_neg]
    rintro ⟨h1, -⟩
    omega
  | succ n ih =>
    intro width hf
    rw [findMaxWidthGoF, findMaxWidthGo]
    split
    · exact ih (width + 1) (by omega)
    · rfl

/-- Fuel-indexed mirror of `findMaxHeightGo`. -/
def findMaxHeightGoF (g : Grid) (x y : Nat) (color : ColorRGBA) (width maxY : Nat) :
    Nat → Nat → Nat
  | 0, hgt => hgt
  | fuel + 1, hgt =>
    if y + hgt < maxY ∧ ∀ i, i < width → g (y + hgt) (x + i) = color then
      findMaxHeightGoF g x y color width maxY fuel (hgt + 1)
    else hgt

lemma findMaxHeightGoF_eq (g : Grid) (x y : Nat) (c : ColorRGBA) (width maxY : Nat) :
    ∀ fuel hgt, maxY ≤ y + hgt + fuel →
      findMaxHeightGoF g x y c width maxY fuel hgt = findMaxHeightGo g x y c width maxY hgt := by
  intro fuel
  induction fuel with
  | zero =>
    intro hgt hf
    rw [findMaxHeightGoF, findMaxHeightGo, dif_neg]
    rintro ⟨h1, -⟩
    omega
  | succ n ih =>
    intro hgt hf
    rw [findMaxHeightGoF, findMaxHeightGo]
    split
    · exact ih (hgt + 1) (by omega)
    · rfl

/-- Fuel-indexed mirror of `expandBlockRGBA`. -/
def expandBlockRGBAF (g : Grid) (u : Mask) (x y : Nat) (color : ColorRGBA)
    (maxX maxY : Nat) : Nat → Nat → Nat → Nat × Nat
  | 0, width, hgt => (width, hgt)
  | fuel + 1, width, hgt =>
    if x + width < maxX ∧
        ∀ i, i < hgt → u (y + i) (x + width) = false ∧ g (y + i) (x + width) = color then
      expandBlockRGBAF g u x y color maxX maxY fuel (width + 1)
        (if y + hgt < maxY ∧
            (∀ i, i < width + 1 → u (y + hgt) (x + i) = false ∧ g (y + hgt) (x + i) = color) then
          hgt + 1
        else hgt)
    else if y + hgt < maxY ∧
        ∀ i, i < width → u (y + hgt) (x + i) = false ∧ g (y + hgt) (x + i) = color then
      expandBlockRGBAF g u x y color maxX maxY fuel width (hgt + 1)
    else (width, hgt)

lemma expandBlockRGBAF_eq (g : Grid) (u : Mask) (x y : Nat) (c : ColorRGBA)
    (maxX maxY : Nat) :
    ∀ fuel width hgt, (maxX - (x + width)) + (maxY - (y + hgt)) ≤ fuel →
      expandBlockRGBAF g u x y c maxX maxY fuel width hgt =
        expandBlockRGBA g u x y width hgt c maxX maxY := by
  intro fuel
  induction fuel with
  | zero =>
    intro width hgt hf
    rw [expandBlockRGBAF, expandBlockRGBA, dif_neg, dif_neg]
    · rintro ⟨h1, -⟩
      omega
    · rintro ⟨h1, -⟩
      omega
  | succ n ih =>
    intro width hgt hf
    rw [expandBlockRGBAF, expandBlockRGBA]
    split
    · split
      · exact ih (width + 1) (hgt + 1) (by omega)
      · exact ih (width + 1) hgt (by omega)
    · split
      · exact ih width (hgt + 1) (by omega)
      · rfl

/-- Executable form of `seedExtent`, with fuel bounds that always suffice. -/
def seedExtentF (g : Grid) (u : Mask) (w h x y : Nat) : Nat × Nat :=
  expandBlockRGBAF g u x y (g y x) w h (w + h + 1)
    (findMaxWidthGoF g x y (g y x) w (w + 1) 1)
    (findMaxHeightGoF g x y (g y x) (findMaxWidthGoF g x y (g y x) w (w + 1) 1) h (h + 1) 1)

lemma seedExtentF_eq (g : Grid) (u : Mask) (w h x y : Nat) :
    seedExtentF g u w h x y = seedExtent g u w h x y := by
  unfold seedExtentF seedExtent findMaxWidthRGBA findMaxHeightRGBA
  rw [findMaxWidthGoF_eq g x y (g y x) w (w + 1) 1 (by omega)]
  rw [findMaxHeightGoF_eq g x y (g y x) _ h (h + 1) 1 (by omega)]
  rw [expandBlockRGBAF_eq g u x y (g y x) w h (w + h + 1) _ _ (by omega)]

/-- Fuel-indexed mirror of `fobGo`. -/
def fobGoF (g : Grid) (w h : Nat) : Nat → Nat → Nat → Mask → List Block → List Block
  | 0, _, _, _, acc => acc
  | fuel + 1, y, x, u, acc =>
    if h ≤ y then acc
    else if w ≤ x then fobGoF g w h fuel (y + 1) 0 u acc
    else if u y x then fobGoF g w h fuel y (x + 1) u acc
    else if (g y x).A = 0 then fobGoF g w h fuel y (x + 1) (setUsed u y x) acc
    else
      fobGoF g w h fuel y (x + (seedExtentF g u w h x y).1)
        (markBlockUsed h w u x y (seedExtentF g u w h x y).1 (seedExtentF g u w h x y).2)
        (acc ++ [⟨x, y, (seedExtentF g u w h x y).1, (seedExtentF g u w h x y).2,
          (g y x).R, (g y x).G, (g y x).B, (g y x).A⟩])

lemma fobGoF_eq (g : Grid) (w h : Nat) :
    ∀ fuel y x u acc, (h - y) * (w + 1) + (w - x) < fuel →
      fobGoF g w h fuel y x u acc = fobGo g w h y x u acc := by
  intro fuel
  induction fuel with
  | zero =>
    intro y x u acc hf
    omega
  | succ n ih =>
    intro y x u acc hf
    rw [fobGoF, fobGo]
    split
    · rfl
    · split
      · refine ih (y + 1) 0 u acc ?_
        have h1 : h - y = (h - (y + 1)) + 1 := by omega
        have h2 : (h - y) * (w + 1) = (h - (y + 1)) * (w + 1) + (w + 1) := by
          rw [h1]
          ring
        omega
      · split
        · exact ih y (x + 1) u acc (by omega)
        · split
          · exact ih y (x + 1) _ acc (by omega)
          · rw [seedExtentF_eq]
            refine ih y _ _ _ ?_
            have := seedExtent_fst_pos g u w h x y
            omega

/-- Membership of the grid cell `(i, j)` (column `i`, row `j`) in a block's
rectangle `[X, X+Width) x [Y, Y+Height)`. -/
def inBlock (b : Block) (i j : Nat) : Prop :=
  b.X ≤ i ∧ i < b.X + b.Width ∧ b.Y ≤ j ∧ j < b.Y + b.Height

instance (b : Block) (i j : Nat) : Decidable (inBlock b i j) := by
  unfold inBlock
  exact inferInstance

/-- The color quadruple recorded on a block. -/
def blockColor (b : Block) : ColorRGBA := ⟨b.R, b.G, b.B, b.A⟩

/-- The spec's Block invariant relative to a `w x h` grid: positive extents,
rectangle inside the canvas, and every covered cell carrying exactly the
recorded color quadruple. -/
def goodBlock (g : Grid) (w h : Nat) (b : Block) : Prop :=
  1 ≤ b.Width ∧ 1 ≤ b.Height ∧ b.X + b.Width ≤ w ∧ b.Y + b.Height ≤ h ∧
    ∀ i j, inBlock b i j → g j i = blockColor b

lemma findMaxWidthGo_le (g : Grid) (x y : Nat) (c : ColorRGBA) (maxX : Nat) :
    ∀ width, x + width ≤ maxX → x + findMaxWidthGo g x y c maxX width ≤ maxX := by
  intro width
  induction width using findMaxWidthGo.induct g x y c maxX with
  | case1 width h ih =>
    intro hw
    rw [findMaxWidthGo, dif_pos h]
    exact ih (by omega)
  | case2 width h =>
    intro hw
    rwa [findMaxWidthGo, dif_neg h]

lemma findMaxWidthGo_uniform (g : Grid) (x y : Nat) (c : ColorRGBA) (maxX : Nat) :
    ∀ width, (∀ k, k < width → g y (x + k) = c) →
      ∀ k, k < findMaxWidthGo g x y c maxX width → g y (x + k) = c := by
  intro width
  induction width using findMaxWidthGo.induct g x y c maxX with
  | case1 width h ih =>
    intro hbase k hk
    rw [findMaxWidthGo, dif_pos h] at hk
    refine ih ?_ k hk
    intro m hm
    rcases Nat.lt_or_ge m width with hm' | hm'
    · exact hbase m hm'
    · have : m = width := by omega
      subst this
      exact h.2
  | case2 width h =>
    intro hbase k hk
    rw [findMaxWidthGo, dif_neg h] at hk
    exact hbase k hk

lemma findMaxHeightGo_ge (g : Grid) (x y : Nat) (c : ColorRGBA) (width maxY : Nat) :
    ∀ hgt, hgt ≤ findMaxHeightGo g x y c width maxY hgt := by
  intro hgt
  induction hgt using findMaxHeightGo.induct g x y c width maxY with
  | case1 hgt h ih =>
    rw [findMaxHeightGo, dif_pos h]
    omega
  | case2 hgt h =>
    rw [findMaxHeightGo, dif_neg h]

lemma findMaxHeightGo_le (g : Grid) (x y : Nat) (c : ColorRGBA) (width maxY : Nat) :
    ∀ hgt, y + hgt ≤ maxY → y + findMaxHeightGo g x y c width maxY hgt ≤ maxY := by
  intro hgt
  induction hgt using findMaxHeightGo.induct g x y c width maxY with
  | case1 hgt h ih =>
    intro hw
    rw [findMaxHeightGo, dif_pos h]
    exact ih (by omega)
  | case2 hgt h =>
    intro hw
    rwa [findMaxHeightGo, dif_neg h]

lemma findMaxHeightGo_uniform (g : Grid) (x y : Nat) (c : ColorRGBA) (width maxY : Nat) :
    ∀ hgt, (∀ j, j < hgt → ∀ i, i < width → g (y + j) (x + i) = c) →
      ∀ j, j < findMaxHeightGo g x y c width maxY hgt →
        ∀ i, i < width → g (y + j) (x + i) = c := by
  intro hgt
  induction hgt using findMaxHeightGo.induct g x y c width maxY with
  | case1 hgt h ih =>
    intro hbase j hj
    rw [findMaxHeightGo, dif_pos h] at hj
    refine ih ?_ j hj
    intro m hm i hi
    rcases Nat.lt_or_ge m hgt with hm' | hm'
    · exact hbase m hm' i hi
    · have : m = hgt := by omega
      subst this
      exact h.2 i hi
  | case2 hgt h =>
    intro hbase j hj
    rw [findMaxHeightGo, dif_neg h] at hj
    exact hbase j hj

lemma expandBlockRGBA_spec (g : Grid) (u : Mask) (x y : Nat) (c : ColorRGBA)
    (maxX maxY : Nat) :
    ∀ width hgt, (∀ j, j < hgt → ∀ i, i < width → g (y + j) (x + i) = c) →
      x + width ≤ maxX → y + hgt ≤ maxY →
      (∀ j, j < (expandBlockRGBA g u x y width hgt c maxX maxY).2 →
        ∀ i, i < (expandBlockRGBA g u x y width hgt c maxX maxY).1 →
          g (y + j) (x + i) = c) ∧
      x + (expandBlockRGBA g u x y width hgt c maxX maxY).1 ≤ maxX ∧
      y + (expandBlockRGBA g u x y width hgt c maxX maxY).2 ≤ maxY := by
  intro width hgt
  induction width, hgt, c, maxX, maxY using expandBlockRGBA.induct g u x y with
  | case1 width hgt color maxX maxY hw ih =>
    intro hbase hbx hby
    rw [expandBlockRGBA, dif_pos hw]
    simp only [dite_eq_ite] at ih ⊢
    have hcol : ∀ j, j < hgt → ∀ i, i < width + 1 → g (y + j) (x + i) = color := by
      intro j hj i hi
      rcases Nat.lt_or_ge i width with hi' | hi'
      · exact hbase j hj i hi'
      · have : i = width := by omega
        subst this
        exact (hw.2 j hj).2
    by_cases hrow : y + hgt < maxY ∧
        ∀ i, i < width + 1 → u (y + hgt) (x + i) = false ∧ g (y + hgt) (x + i) = color
    · rw [if_pos hrow] at ih ⊢
      refine ih ?_ (by omega) (by omega)
      intro j hj i hi
      rcases Nat.lt_or_ge j hgt with hj' | hj'
      · exact hcol j hj' i hi
      · have : j = hgt := by omega
        subst this
        exact (hrow.2 i hi).2
    · rw [if_neg hrow] at ih ⊢
      exact ih hcol (by omega) hby
  | case2 width hgt color maxX maxY hw hh ih =>
    intro hbase hbx hby
    rw [expandBlockRGBA, dif_neg hw, dif_pos hh]
    refine ih ?_ hbx (by omega)
    intro j hj i hi
    rcases Nat.lt_or_ge j hgt with hj' | hj'
    · exact hbase j hj' i hi
    · have : j = hgt := by omega
      subst this
      exact (hh.2 i hi).2
  | case3 width hgt color maxX maxY hw hh =>
    intro hbase hbx hby
    rw [expandBlockRGBA, dif_neg hw, dif_neg hh]
    exact ⟨hbase, hbx, hby⟩

/-- Combined specification of the extent computed for an in-range seed:
it stays on the canvas, is at least `1 x 1`, and covers only cells whose
color equals the seed's color. -/
lemma seedExtent_spec (g : Grid) (u : Mask) (w h x y : Nat)
    (hx : x < w) (hy : y < h) :
    x + (seedExtent g u w h x y).1 ≤ w ∧ y + (seedExtent g u w h x y).2 ≤ h ∧
    1 ≤ (seedExtent g u w h x y).1 ∧ 1 ≤ (seedExtent g u w h x y).2 ∧
    ∀ j, j < (seedExtent g u w h x y).2 → ∀ i, i < (seedExtent g u w h x y).1 →
      g (y + j) (x + i) = g y x := by
  have hrow : ∀ k, k < findMaxWidthRGBA g x y (g y x) w → g y (x + k) = g y x := by
    refine findMaxWidthGo_uniform g x y (g y x) w 1 ?_
    intro k hk
    have : k = 0 := by omega
    subst this
    rfl
  have hwle : x + findMaxWidthRGBA g x y (g y x) w ≤ w :=
    findMaxWidthGo_le g x y (g y x) w 1 (by omega)
  have hrect : ∀ j, j < findMaxHeightRGBA g x y (g y x) (findMaxWidthRGBA g x y (g y x) w) h →
      ∀ i, i < findMaxWidthRGBA g x y (g y x) w → g (y + j) (x + i) = g y x := by
    refine findMaxHeightGo_uniform g x y (g y x) _ h 1 ?_
    intro j hj i hi
    have : j = 0 := by omega
    subst this
    exact hrow i hi
  have hhle : y + findMaxHeightRGBA g x y (g y x) (findMaxWidthRGBA g x y (g y x) w) h ≤ h :=
    findMaxHeightGo_le g x y (g y x) _ h 1 (by omega)
  have hmain := expandBlockRGBA_spec g u x y (g y x) w h
    (findMaxWidthRGBA g x y (g y x) w)
    (findMaxHeightRGBA g x y (g y x) (findMaxWidthRGBA g x y (g y x) w) h)
    hrect hwle hhle
  have hge := expandBlockRGBA_ge g u x y (g y x) w h
    (findMaxWidthRGBA g x y (g y x) w)
    (findMaxHeightRGBA g x y (g y x) (findMaxWidthRGBA g x y (g y x) w) h)
  have h1 : 1 ≤ findMaxWidthRGBA g x y (g y x) w := findMaxWidthGo_ge g x y (g y x) w 1
  have h2 : 1 ≤ findMaxHeightRGBA g x y (g y x) (findMaxWidthRGBA g x y (g y x) w) h :=
    findMaxHeightGo_ge g x y (g y x) _ h 1
  unfold seedExtent
  exact ⟨hmain.2.1, hmain.2.2, by omega, by omega, hmain.1⟩

/-- Loop invariant of the scan: every already-scanned in-range cell is used;
every used in-range cell is covered by an emitted block or fully transparent;
every emitted block satisfies the Block invariant and has nonzero alpha.
From this the final block list covers every nonzero-alpha cell. -/
lemma fobGo_covers (g : Grid) (w h : Nat) :
    ∀ y x u acc,
      (∀ i j, i < w → j < h → (j < y ∨ (j = y ∧ i < x)) → u j i = true) →
      (∀ i j, i < w → j < h → u j i = true →
        (∃ b ∈ acc, inBlock b i j) ∨ (g j i).A = 0) →
      (∀ b ∈ acc, goodBlock g w h b ∧ (blockColor b).A ≠ 0) →
      (∀ b ∈ fobGo g w h y x u acc, goodBlock g w h b ∧ (blockColor b).A ≠ 0) ∧
      (∀ i j, i < w → j < h → (g j i).A ≠ 0 →
        ∃ b ∈ fobGo g w h y x u acc, inBlock b i j) := by
  intro y x u acc
  induction y, x, u, acc using fobGo.induct g w h with
  | case1 y x u acc hy =>
    intro hS hU hB
    rw [fobGo, dif_pos hy]
    refine ⟨hB, ?_⟩
    intro i j hi hj ha
    have hu : u j i = true := hS i j hi hj (Or.inl (by omega))
    rcases hU i j hi hj hu with hb | hb
    · exact hb
    · exact absurd hb ha
  | case2 y x u acc hy hx ih =>
    intro hS hU hB
    rw [fobGo, dif_neg hy, dif_pos hx]
    refine ih ?_ hU hB
    intro i j hi hj hscan
    refine hS i j hi hj ?_
    omega
  | case3 y x u acc hy hx hu ih =>
    intro hS hU hB
    rw [fobGo, dif_neg hy, dif_neg hx, dif_pos hu]
    refine ih ?_ hU hB
    intro i j hi hj hscan
    rcases hscan with hs | hs
    · exact hS i j hi hj (Or.inl hs)
    · rcases Nat.lt_or_ge i x with hi' | hi'
      · exact hS i j hi hj (Or.inr ⟨hs.1, hi'⟩)
      · have : i = x ∧ j = y := by omega
        rw [this.1, this.2]
        exact hu
  | case4 y x u acc hy hx hu ha ih =>
    intro hS hU hB
    rw [fobGo, dif_neg hy, dif_neg hx, dif_neg hu, dif_pos ha]
    refine ih ?_ ?_ hB
    · intro i j hi hj hscan
      unfold setUsed
      rcases hscan with hs | hs
      · split
        · rfl
        · exact hS i j hi hj (Or.inl hs)
      · rcases Nat.lt_or_ge i x with hi' | hi'
        · split
          · rfl
          · exact hS i j hi hj (Or.inr ⟨hs.1, hi'⟩)
        · have hij : i = x ∧ j = y := by omega
          simp [setUsed, hij.1, hij.2]
    · intro i j hi hj hused
      unfold setUsed at hused
      split at hused
      · rename_i hij
        right
        rw [hij.1, hij.2]
        exact ha
      · exact hU i j hi hj hused
  | case5 y x u acc hy hx hu ha ih =>
    intro hS hU hB
    rw [fobGo, dif_neg hy, dif_neg hx, dif_neg hu, dif_neg ha]
    have hspec := seedExtent_spec g u w h x y (by omega) (by omega)
    set e := seedExtent g u w h x y with he
    refine ih ?_ ?_ ?_
    · intro i j hi hj hscan
      unfold markBlockUsed
      rcases hscan with hs | hs
      · split
        · rfl
        · exact hS i j hi hj (Or.inl hs)
      · rcases Nat.lt_or_ge i x with hi' | hi'
        · split
          · rfl
          · exact hS i j hi hj (Or.inr ⟨hs.1, hi'⟩)
        · have hj' : j = y := hs.1
          rw [if_pos]
          rw [hj']
          refine ⟨le_rfl, by omega, by omega, hi', ?_, ?_⟩ <;> omega
    · intro i j hi hj hused
      unfold markBlockUsed at hused
      split at hused
      · rename_i hm
        left
        refine ⟨⟨x, y, e.1, e.2, (g y x).R, (g y x).G, (g y x).B, (g y x).A⟩, ?_, ?_⟩
        · simp
        · exact ⟨hm.2.2.2.1, hm.2.2.2.2.1, hm.1, hm.2.1⟩
      · rcases hU i j hi hj hused with ⟨b, hb, hbin⟩ | hb
        · exact Or.inl ⟨b, by simp [hb], hbin⟩
        · exact Or.inr hb
    · intro b hb
      rcases List.mem_append.1 hb with hb | hb
      · exact hB b hb
      · have hbeq : b = ⟨x, y, e.1, e.2, (g y x).R, (g y x).G, (g y x).B, (g y x).A⟩ := by
          simpa using hb
        subst hbeq
        constructor
        · refine ⟨by simpa using hspec.2.2.1, by simpa using hspec.2.2.2.1,
            by simpa using hspec.1, by simpa using hspec.2.1, ?_⟩
          intro i j hin
          rcases hin with ⟨h1, h2, h3, h4⟩
          simp only at h1 h2 h3 h4 ⊢
          have := hspec.2.2.2.2 (j - y) (by omega) (i - x) (by omega)
          have hji : y + (j - y) = j := by omega
          have hii : x + (i - x) = i := by omega
          rw [hji, hii] at this
          rw [this]
          rfl
        · simpa [blockColor] using ha

/-- Hypothesis-free executable characterization of `findOptimalBlocks`:
running the fuel mirror with fuel `h*(w+1) + w + 1` (one unit per scan step)
computes the same block list.  This equation is what concrete instances are
evaluated through. -/
lemma findOptimalBlocks_eval (g : Grid) (w h : Nat) :
    findOptimalBlocks g w h =
      fobGoF g w h (h * (w + 1) + w + 1) 0 0 (fun _ _ => false) [] := by
  rw [findOptimalBlocks, fobGoF_eq g w h _ 0 0 _ _ (by simp only [Nat.sub_zero]; omega)]

/-! ### PixelGrid builder (RGBA variant of `createColorGrid`) -/

/-- A decoded image source: `img x y` returns the 16-bit-per-channel
`(r, g, b, a)` of the pixel at column `x`, row `y` (Go `img.At(x, y).RGBA()`). -/
abbrev ImageSource := Nat → Nat → Nat × Nat × Nat × Nat

/-- Source `createColorGrid(img, width, height, progress)` (RGBA variant):
row-major grid of quantized cells; each channel is narrowed by `uint8(v >> 8)`,
modelled as `(v >>> 8) % 256`.  The progress callback is observational only
and not modelled. -/
def createColorGrid (img : ImageSource) (width height : Nat) : List (List ColorRGBA) :=
  (List.range height).map fun y =>
    (List.range width).map fun x =>
      ⟨(img x y).1 >>> 8 % 256, (img x y).2.1 >>> 8 % 256,
        (img x y).2.2.1 >>> 8 % 256, (img x y).2.2.2 >>> 8 % 256⟩

/-! ### Document serializer (SVG writer with transparency support) -/

/-- Decimal rendering of a natural number; models `strconv.Itoa` for the
nonnegative values produced by the engine. -/
def itoa (n : Nat) : String :=
  Nat.repr n

/-- Source `hexChar(b)`: `'0'+b` for `b < 10`, otherwise `'a'+(b-10)`. -/
def hexChar (b : Nat) : Char :=
  if b < 10 then Char.ofNat (48 + b) else Char.ofNat (97 + (b - 10))

/-- Source `optimizeColor(r, g, b)`: 3-digit shorthand when every channel's
high nibble (`v >> 4`) equals its low nibble (`v & 0x0F`), else the full
6-digit form. -/
def optimizeColor (r g b : Nat) : String :=
  if r >>> 4 = r &&& 15 ∧ g >>> 4 = g &&& 15 ∧ b >>> 4 = b &&& 15 then
    String.mk ['#', hexChar (r >>> 4), hexChar (g >>> 4), hexChar (b >>> 4)]
  else
    String.mk ['#', hexChar (r >>> 4), hexChar (r &&& 15), hexChar (g >>> 4),
      hexChar (g &&& 15), hexChar (b >>> 4), hexChar (b &&& 15)]

/-- Models `strconv.FormatFloat(float64(a)/255.0, 'f', 3, 64)` for `a ≤ 255`.
For every 8-bit `a` the quotient `a/255` is never half-way between two
3-decimal values (the gap to any boundary `(2k+1)/2000` is at least
`1/510000`, far above the float64 rounding error of the quotient), so the
correctly rounded double prints as the correctly rounded rational:
digits `(2000*a + 255) / 510 = round(1000*a/255)`, written with a leading
`0.` (or `1.000` for `a = 255`, which `writeBlock` never requests). -/
def formatOpacity (a : Nat) : String :=
  if a = 255 then "1.000"
  else
    String.mk ['0', '.', Char.ofNat (48 + (2000 * a + 255) / 510 / 100),
      Char.ofNat (48 + (2000 * a + 255) / 510 / 10 % 10),
      Char.ofNat (48 + (2000 * a + 255) / 510 % 10)]

/-- Source `SVGWriter.writeBlock`: alpha-0 blocks produce no element at all;
otherwise a rect with the optimized fill, plus a `fill-opacity` attribute
exactly when `block.A < 255`. -/
def writeBlock (b : Block) : String :=
  if b.A = 0 then ""
  else
    ("<rect x=\"" ++ itoa b.X ++ "\" y=\"" ++ itoa b.Y ++ "\" width=\"" ++ itoa b.Width ++
        "\" height=\"" ++ itoa b.Height ++ "\" fill=\"" ++ optimizeColor b.R b.G b.B ++
        (if b.A < 255 then "\" fill-opacity=\"" ++ formatOpacity b.A else "")) ++ "\"/>"

/-- Source `SVGWriter.writeHeader`: fixed preamble with the canvas size. -/
def writeHeader (w h : Nat) : String :=
  "<?xml version=\"1.0\" encoding=\"UTF-8\"?><svg width=\"" ++ itoa w ++
    "\" height=\"" ++ itoa h ++ "\" xmlns=\"http://www.w3.org/2000/svg\">"

/-- Source `SVGWriter.writeFooter`. -/
def writeFooter : String :=
  "</svg>"

/-- Source `SVGWriter.WriteBlocks`: header, then every block in engine order,
then footer (the progress tracker is observational only and not modelled). -/
def WriteBlocks (w h : Nat) (blocks : List Block) : String :=
  writeHeader w h ++ String.join (blocks.map writeBlock) ++ writeFooter

/-! ### Historical packed-uint32 engine (second document of image_processor.go) -/

/-- Packed grid of the historical engine, indexed `g row col`. -/
abbrev GridU32 := Nat → Nat → Nat

/-- Block of the historical engine (no alpha channel). -/
structure BlockRGB where
  X : Nat
  Y : Nat
  Width : Nat
  Height : Nat
  R : Nat
  G : Nat
  B : Nat
deriving DecidableEq

/-- Packing of already-quantized 8-bit channels into the historical uint32
cell (source `createColorGrid`, uint32 variant:
`(uint32(r>>8) << 16) | (uint32(g>>8) << 8) | uint32(b>>8)`; the `>> 8` is
the quantization already recorded in a `ColorRGBA` cell, so the cell value is
`R<<16 | G<<8 | B`). -/
def packRGB (c : ColorRGBA) : Nat :=
  c.R <<< 16 ||| c.G <<< 8 ||| c.B

/-- Loop of source `findMaxWidth` (uint32 variant). -/
def findMaxWidthU32Go (g : GridU32) (x y color maxX width : Nat) : Nat :=
  if h : x + width < maxX ∧ g y (x + width) = color then
    findMaxWidthU32Go g x y color maxX (width + 1)
  else width
termination_by maxX - (x + width)
decreasing_by omega

/-- Source `findMaxWidth(grid, x, y, color, maxX)` (uint32 variant). -/
def findMaxWidthU32 (g : GridU32) (x y color maxX : Nat) : Nat :=
  findMaxWidthU32Go g x y color maxX 1

/-- Loop of source `findMaxHeight` (uint32 variant). -/
def findMaxHeightU32Go (g : GridU32) (x y color width maxY hgt : Nat) : Nat :=
  if h : y + hgt < maxY ∧ ∀ i, i < width → g (y + hgt) (x + i) = color then
    findMaxHeightU32Go g x y color width maxY (hgt + 1)
  else hgt
termination_by maxY - (y + hgt)
decreasing_by omega

/-- Source `findMaxHeight(grid, x, y, color, width, maxY)` (uint32 variant). -/
def findMaxHeightU32 (g : GridU32) (x y color width maxY : Nat) : Nat :=
  findMaxHeightU32Go g x y color width maxY 1

/-- Source `expandBlock(grid, used, x, y, width, height, color, maxX, maxY)`
(uint32 variant), structured exactly like `expandBlockRGBA`. -/
def expandBlockU32 (g : GridU32) (u : Mask) (x y width hgt color : Nat)
    (maxX maxY : Nat) : Nat × Nat :=
  if hw : x + width < maxX ∧
      ∀ i, i < hgt → u (y + i) (x + width) = false ∧ g (y + i) (x + width) = color then
    expandBlockU32 g u x y (width + 1)
      (if y + hgt < maxY ∧
          (∀ i, i < width + 1 → u (y + hgt) (x + i) = false ∧ g (y + hgt) (x + i) = color) then
        hgt + 1
      else hgt) color maxX maxY
  else if hh : y + hgt < maxY ∧
      ∀ i, i < width → u (y + hgt) (x + i) = false ∧ g (y + hgt) (x + i) = color then
    expandBlockU32 g u x y width (hgt + 1) color maxX maxY
  else (width, hgt)
termination_by (maxX - (x + width)) + (maxY - (y + hgt))
decreasing_by
  · split <;> omega
  · omega

/-- The expanded extent for a seed of the uint32 engine. -/
def seedExtentU32 (g : GridU32) (u : Mask) (w h x y : Nat) : Nat × Nat :=
  expandBlockU32 g u x y (findMaxWidthU32 g x y (g y x) w)
    (findMaxHeightU32 g x y (g y x) (findMaxWidthU32 g x y (g y x) w) h) (g y x) w h

lemma findMaxWidthU32Go_ge (g : GridU32) (x y color maxX : Nat) :
    ∀ width, width ≤ findMaxWidthU32Go g x y color maxX width := by
  intro width
  induction width using findMaxWidthU32Go.induct g x y color maxX with
  | case1 width h ih =>
    rw [findMaxWidthU32Go, dif_pos h]
    omega
  | case2 width h =>
    rw [findMaxWidthU32Go, dif_neg h]

lemma expandBlockU32_ge (g : GridU32) (u : Mask) (x y : Nat) :
    ∀ width hgt color maxX maxY,
      width ≤ (expandBlockU32 g u x y width hgt color maxX maxY).1 := by
  intro width hgt color maxX maxY
  induction width, hgt, color, maxX, maxY using expandBlockU32.induct g u x y with
  | case1 width hgt color maxX maxY hw ih =>
    rw [expandBlockU32, dif_pos hw]
    exact le_trans (by omega) ih
  | case2 width hgt color maxX maxY hw hh ih =>
    rw [expandBlockU32, dif_neg hw, dif_pos hh]
    exact ih
  | case3 width hgt color maxX maxY hw hh =>
    rw [expandBlockU32, dif_neg hw, dif_neg hh]

lemma seedExtentU32_fst_pos (g : GridU32) (u : Mask) (w h x y : Nat) :
    1 ≤ (seedExtentU32 g u w h x y).1 := by
  unfold seedExtentU32
  exact le_trans (findMaxWidthU32Go_ge g x y (g y x) w 1) (expandBlockU32_ge g u x y _ _ _ _ _)

/-- Loop body of `findOptimalBlocks` (uint32 variant): same scan, but no
transparent skip; channels recovered by `uint8(color>>16)`, `uint8(color>>8)`,
`uint8(color)`. -/
def fobGoU32 (g : GridU32) (w h : Nat) (y x : Nat) (u : Mask) (acc : List BlockRGB) :
    List BlockRGB :=
  if hy : h ≤ y then acc
  else if hx : w ≤ x then fobGoU32 g w h (y + 1) 0 u acc
  else if hu : u y x then fobGoU32 g w h y (x + 1) u acc
  else
    fobGoU32 g w h y (x + (seedExtentU32 g u w h x y).1)
      (markBlockUsed h w u x y (seedExtentU32 g u w h x y).1 (seedExtentU32 g u w h x y).2)
      (acc ++ [⟨x, y, (seedExtentU32 g u w h x y).1, (seedExtentU32 g u w h x y).2,
        g y x >>> 16 % 256, g y x >>> 8 % 256, g y x % 256⟩])
termination_by (h - y, w - x)
decreasing_by
  · exact Prod.Lex.left _ _ (by omega)
  · exact Prod.Lex.right _ (by omega)
  · exact Prod.Lex.right _ (by have := seedExtentU32_fst_pos g u w h x y; omega)

/-- Source `findOptimalBlocks(grid, width, height)` (uint32 variant). -/
def findOptimalBlocksU32 (g : GridU32) (w h : Nat) : List BlockRGB :=
  fobGoU32 g w h 0 0 (fun _ _ => false) []

/-- Forgetting the alpha channel of an RGBA block. -/
def Block.toRGB (b : Block) : BlockRGB :=
  ⟨b.X, b.Y, b.Width, b.Height, b.R, b.G, b.B⟩

/-! ### Arithmetic of the packed-integer color representations -/

lemma shiftLeft_or_eq_add (a m k : Nat) (hm : m < 2 ^ k) :
    a <<< k ||| m = a <<< k + m := by
  apply Nat.eq_of_testBit_eq
  intro j
  rw [Nat.testBit_or, Nat.shiftLeft_eq, Nat.mul_comm a (2 ^ k),
    Nat.testBit_mul_pow_two_add a hm j]
  by_cases hjk : j < k
  · rw [if_pos hjk]
    have h0 : Nat.testBit (2 ^ k * a) j = false := by
      rw [Nat.mul_comm, ← Nat.shiftLeft_eq, Nat.testBit_shiftLeft]
      simp [Nat.not_le.2 hjk]
    rw [h0, Bool.false_or]
  · rw [if_neg hjk]
    have hmj : Nat.testBit m j = false :=
      Nat.testBit_eq_false_of_lt
        (lt_of_lt_of_le hm (Nat.pow_le_pow_right (by norm_num) (by omega)))
    rw [hmj, Bool.or_false, Nat.mul_comm, ← Nat.shiftLeft_eq, Nat.testBit_shiftLeft]
    simp [Nat.le_of_not_lt hjk]

lemma two_pow_8 : (2 : Nat) ^ 8 = 256 := rfl

lemma two_pow_16 : (2 : Nat) ^ 16 = 65536 := rfl

lemma two_pow_24 : (2 : Nat) ^ 24 = 16777216 := rfl

lemma packRGB_eq_arith (c : ColorRGBA) (hg : c.G ≤ 255) (hb : c.B ≤ 255) :
    packRGB c = c.R * 65536 + c.G * 256 + c.B := by
  unfold packRGB
  have h1 : c.R <<< 16 ||| c.G <<< 8 = c.R <<< 16 + c.G <<< 8 :=
    shiftLeft_or_eq_add c.R (c.G <<< 8) 16
      (by simp only [Nat.shiftLeft_eq, two_pow_8, two_pow_16]; omega)
  rw [h1]
  have h2 : c.R <<< 16 + c.G <<< 8 = (c.R * 256 + c.G) <<< 8 := by
    simp only [Nat.shiftLeft_eq, two_pow_8, two_pow_16]
    ring
  rw [h2, shiftLeft_or_eq_add _ _ 8 (by simp only [two_pow_8]; omega)]
  simp only [Nat.shiftLeft_eq, two_pow_8]
  ring

lemma packRGB_unpack (c : ColorRGBA) (hr : c.R ≤ 255) (hg : c.G ≤ 255) (hb : c.B ≤ 255) :
    packRGB c >>> 16 % 256 = c.R ∧ packRGB c >>> 8 % 256 = c.G ∧ packRGB c % 256 = c.B := by
  rw [packRGB_eq_arith c hg hb, Nat.shiftRight_eq_div_pow, Nat.shiftRight_eq_div_pow,
    two_pow_8, two_pow_16]
  omega

lemma packRGB_inj (c1 c2 : ColorRGBA)
    (h1g : c1.G ≤ 255) (h1b : c1.B ≤ 255)
    (h2g : c2.G ≤ 255) (h2b : c2.B ≤ 255) :
    packRGB c1 = packRGB c2 ↔ c1.R = c2.R ∧ c1.G = c2.G ∧ c1.B = c2.B := by
  rw [packRGB_eq_arith c1 h1g h1b, packRGB_eq_arith c2 h2g h2b]
  omega

lemma ToUint64_eq_arith (c : ColorRGBA) (hg : c.G ≤ 255) (hb : c.B ≤ 255) (ha : c.A ≤ 255) :
    c.ToUint64 = c.R * 16777216 + c.G * 65536 + c.B * 256 + c.A := by
  unfold ColorRGBA.ToUint64
  have h1 : c.R <<< 24 ||| c.G <<< 16 = c.R <<< 24 + c.G <<< 16 :=
    shiftLeft_or_eq_add c.R (c.G <<< 16) 24
      (by simp only [Nat.shiftLeft_eq, two_pow_16, two_pow_24]; omega)
  rw [h1]
  have h2 : c.R <<< 24 + c.G <<< 16 = (c.R * 256 + c.G) <<< 16 := by
    simp only [Nat.shiftLeft_eq, two_pow_16, two_pow_24]
    ring
  rw [h2]
  have h3 : (c.R * 256 + c.G) <<< 16 ||| c.B <<< 8 =
      (c.R * 256 + c.G) <<< 16 + c.B <<< 8 :=
    shiftLeft_or_eq_add _ (c.B <<< 8) 16
      (by simp only [Nat.shiftLeft_eq, two_pow_8, two_pow_16]; omega)
  rw [h3]
  have h4 : (c.R * 256 + c.G) <<< 16 + c.B <<< 8 =
      ((c.R * 256 + c.G) * 256 + c.B) <<< 8 := by
    simp only [Nat.shiftLeft_eq, two_pow_8, two_pow_16]
    ring
  rw [h4, shiftLeft_or_eq_add _ _ 8 (by simp only [two_pow_8]; omega)]
  simp only [Nat.shiftLeft_eq, two_pow_8]
  ring

/-- Packed-uint64 equality coincides with structural equality for genuine
8-bit channel values. -/
lemma ToUint64_inj (c1 c2 : ColorRGBA)
    (b1 : c1.R ≤ 255 ∧ c1.G ≤ 255 ∧ c1.B ≤ 255 ∧ c1.A ≤ 255)
    (b2 : c2.R ≤ 255 ∧ c2.G ≤ 255 ∧ c2.B ≤ 255 ∧ c2.A ≤ 255) :
    c1.ToUint64 = c2.ToUint64 ↔ c1 = c2 := by
  rw [ToUint64_eq_arith c1 b1.2.1 b1.2.2.1 b1.2.2.2,
    ToUint64_eq_arith c2 b2.2.1 b2.2.2.1 b2.2.2.2]
  constructor
  · intro hEq
    rcases c1 with ⟨r1, g1, bb1, a1⟩
    rcases c2 with ⟨r2, g2, bb2, a2⟩
    simp only at hEq b1 b2 ⊢
    simp only [ColorRGBA.mk.injEq]
    omega
  · intro hEq
    rw [hEq]

/-! ### Lockstep agreement of the two engines on fully opaque grids -/

/-- The packed grid the historical engine sees for the same decoded image
whose quantized cells form `g` (source `createColorGrid`, uint32 variant). -/
def packGrid (g : Grid) : GridU32 :=
  fun j i => packRGB (g j i)

/-- Channel bounds of genuine uint8 cells, with full opacity. -/
def OpaqueGrid (g : Grid) (w h : Nat) : Prop :=
  ∀ j i, j < h → i < w →
    (g j i).R ≤ 255 ∧ (g j i).G ≤ 255 ∧ (g j i).B ≤ 255 ∧ (g j i).A = 255

lemma ColorRGBA.eq_iff (c1 c2 : ColorRGBA) :
    c1 = c2 ↔ c1.R = c2.R ∧ c1.G = c2.G ∧ c1.B = c2.B ∧ c1.A = c2.A := by
  cases c1
  cases c2
  simp [ColorRGBA.mk.injEq]

lemma cell_eq_iff_packed {g : Grid} {w h : Nat} (hb : OpaqueGrid g w h)
    {j i : Nat} (hj : j < h) (hi : i < w)
    {c : ColorRGBA} (hcb : c.R ≤ 255 ∧ c.G ≤ 255 ∧ c.B ≤ 255 ∧ c.A = 255) :
    packGrid g j i = packRGB c ↔ g j i = c := by
  rcases hb j i hj hi with ⟨h1, h2, h3, h4⟩
  show packRGB (g j i) = packRGB c ↔ _
  rw [packRGB_inj _ _ h2 h3 hcb.2.1 hcb.2.2.1, ColorRGBA.eq_iff]
  constructor
  · intro hch
    exact ⟨hch.1, hch.2.1, hch.2.2, by rw [h4, hcb.2.2.2]⟩
  · intro hch
    exact ⟨hch.1, hch.2.1, hch.2.2.1⟩

lemma findMaxWidthGo_lock {g : Grid} {w h : Nat} (hb : OpaqueGrid g w h)
    (x y : Nat) {c : ColorRGBA}
    (hcb : c.R ≤ 255 ∧ c.G ≤ 255 ∧ c.B ≤ 255 ∧ c.A = 255) (hy : y < h) :
    ∀ width maxX, maxX ≤ w →
      findMaxWidthU32Go (packGrid g) x y (packRGB c) maxX width =
        findMaxWidthGo g x y c maxX width := by
  intro width maxX
  induction width using findMaxWidthGo.induct g x y c maxX with
  | case1 width hcond ih =>
    intro hmx
    rw [findMaxWidthGo, dif_pos hcond, findMaxWidthU32Go, dif_pos ?pos]
    case pos =>
      refine ⟨hcond.1, ?_⟩
      rw [cell_eq_iff_packed hb hy (by omega) hcb]
      exact hcond.2
    exact ih hmx
  | case2 width hcond =>
    intro hmx
    rw [findMaxWidthGo, dif_neg hcond, findMaxWidthU32Go, dif_neg ?neg]
    case neg =>
      rintro ⟨hlt, hpk⟩
      refine hcond ⟨hlt, ?_⟩
      rw [← cell_eq_iff_packed hb hy (by omega) hcb]
      exact hpk

lemma findMaxHeightGo_lock {g : Grid} {w h : Nat} (hb : OpaqueGrid g w h)
    (x y : Nat) {c : ColorRGBA}
    (hcb : c.R ≤ 255 ∧ c.G ≤ 255 ∧ c.B ≤ 255 ∧ c.A = 255) :
    ∀ hgt width maxY, maxY ≤ h → x + width ≤ w →
      findMaxHeightU32Go (packGrid g) x y (packRGB c) width maxY hgt =
        findMaxHeightGo g x y c width maxY hgt := by
  intro hgt width maxY
  induction hgt using findMaxHeightGo.induct g x y c width maxY with
  | case1 hgt hcond ih =>
    intro hmy hxw
    rw [findMaxHeightGo, dif_pos hcond, findMaxHeightU32Go, dif_pos ?pos]
    case pos =>
      refine ⟨hcond.1, ?_⟩
      intro i hi
      rw [cell_eq_iff_packed hb (by omega) (by omega) hcb]
      exact hcond.2 i hi
    exact ih hmy hxw
  | case2 hgt hcond =>
    intro hmy hxw
    rw [findMaxHeightGo, dif_neg hcond, findMaxHeightU32Go, dif_neg ?neg]
    case neg =>
      rintro ⟨hlt, hpk⟩
      refine hcond ⟨hlt, ?_⟩
      intro i hi
      rw [← cell_eq_iff_packed hb (by omega) (by omega) hcb]
      exact hpk i hi

lemma expandBlock_lock {g : Grid} {w h : Nat} (hb : OpaqueGrid g w h)
    (u : Mask) (x y : Nat) :
    ∀ width hgt (c : ColorRGBA) (maxX maxY : Nat),
      maxX ≤ w → maxY ≤ h →
      (c.R ≤ 255 ∧ c.G ≤ 255 ∧ c.B ≤ 255 ∧ c.A = 255) →
      x + width ≤ maxX → y + hgt ≤ maxY →
      expandBlockU32 (packGrid g) u x y width hgt (packRGB c) maxX maxY =
        expandBlockRGBA g u x y width hgt c maxX maxY := by
  intro width hgt c maxX maxY
  induction width, hgt, c, maxX, maxY using expandBlockRGBA.induct g u x y with
  | case1 width hgt color maxX maxY hw ih =>
    intro hmx hmy hcb hbx hby
    simp only [dite_eq_ite] at ih
    have hwU : x + width < maxX ∧ ∀ i, i < hgt →
        u (y + i) (x + width) = false ∧ packGrid g (y + i) (x + width) = packRGB color := by
      refine ⟨hw.1, ?_⟩
      intro i hi
      refine ⟨(hw.2 i hi).1, ?_⟩
      rw [cell_eq_iff_packed hb (by omega) (by omega) hcb]
      exact (hw.2 i hi).2
    rw [expandBlockRGBA, dif_pos hw, expandBlockU32, dif_pos hwU]
    by_cases hrow : y + hgt < maxY ∧
        ∀ i, i < width + 1 → u (y + hgt) (x + i) = false ∧ g (y + hgt) (x + i) = color
    · have hrowU : y + hgt < maxY ∧ ∀ i, i < width + 1 →
          u (y + hgt) (x + i) = false ∧ packGrid g (y + hgt) (x + i) = packRGB color := by
        refine ⟨hrow.1, ?_⟩
        intro i hi
        refine ⟨(hrow.2 i hi).1, ?_⟩
        rw [cell_eq_iff_packed hb (by omega) (by omega) hcb]
        exact (hrow.2 i hi).2
      rw [if_pos hrow] at ih ⊢
      rw [if_pos hrowU]
      exact ih hmx hmy hcb (by omega) (by omega)
    · have hrowU : ¬(y + hgt < maxY ∧ ∀ i, i < width + 1 →
          u (y + hgt) (x + i) = false ∧ packGrid g (y + hgt) (x + i) = packRGB color) := by
        rintro ⟨hlt, hpk⟩
        refine hrow ⟨hlt, ?_⟩
        intro i hi
        refine ⟨(hpk i hi).1, ?_⟩
        rw [← cell_eq_iff_packed hb (by omega) (by omega) hcb]
        exact (hpk i hi).2
      rw [if_neg hrow] at ih ⊢
      rw [if_neg hrowU]
      exact ih hmx hmy hcb (by omega) hby
  | case2 width hgt color maxX maxY hw hh ih =>
    intro hmx hmy hcb hbx hby
    have hwU : ¬(x + width < maxX ∧ ∀ i, i < hgt →
        u (y + i) (x + width) = false ∧ packGrid g (y + i) (x + width) = packRGB color) := by
      rintro ⟨hlt, hpk⟩
      refine hw ⟨hlt, ?_⟩
      intro i hi
      refine ⟨(hpk i hi).1, ?_⟩
      rw [← cell_eq_iff_packed hb (by omega) (by omega) hcb]
      exact (hpk i hi).2
    have hhU : y + hgt < maxY ∧ ∀ i, i < width →
        u (y + hgt) (x + i) = false ∧ packGrid g (y + hgt) (x + i) = packRGB color := by
      refine ⟨hh.1, ?_⟩
      intro i hi
      refine ⟨(hh.2 i hi).1, ?_⟩
      rw [cell_eq_iff_packed hb (by omega) (by omega) hcb]
      exact (hh.2 i hi).2
    rw [expandBlockRGBA, dif_neg hw, dif_pos hh, expandBlockU32, dif_neg hwU, dif_pos hhU]
    exact ih hmx hmy hcb hbx (by omega)
  | case3 width hgt color maxX maxY hw hh =>
    intro hmx hmy hcb hbx hby
    have hwU : ¬(x + width < maxX ∧ ∀ i, i < hgt →
        u (y + i) (x + width) = false ∧ packGrid g (y + i) (x + width) = packRGB color) := by
      rintro ⟨hlt, hpk⟩
      refine hw ⟨hlt, ?_⟩
      intro i hi
      refine ⟨(hpk i hi).1, ?_⟩
      rw [← cell_eq_iff_packed hb (by omega) (by omega) hcb]
      exact (hpk i hi).2
    have hhU : ¬(y + hgt < maxY ∧ ∀ i, i < width →
        u (y + hgt) (x + i) = false ∧ packGrid g (y + hgt) (x + i) = packRGB color) := by
      rintro ⟨hlt, hpk⟩
      refine hh ⟨hlt, ?_⟩
      intro i hi
      refine ⟨(hpk i hi).1, ?_⟩
      rw [← cell_eq_iff_packed hb (by omega) (by omega) hcb]
      exact (hpk i hi).2
    rw [expandBlockRGBA, dif_neg hw, dif_neg hh, expandBlockU32, dif_neg hwU, dif_neg hhU]

lemma seedExtent_lock {g : Grid} {w h : Nat} (hb : OpaqueGrid g w h)
    (u : Mask) {x y : Nat} (hx : x < w) (hy : y < h) :
    seedExtentU32 (packGrid g) u w h x y = seedExtent g u w h x y := by
  have hcb : (g y x).R ≤ 255 ∧ (g y x).G ≤ 255 ∧ (g y x).B ≤ 255 ∧ (g y x).A = 255 :=
    hb y x hy hx
  have hpk : packGrid g y x = packRGB (g y x) := rfl
  unfold seedExtentU32 seedExtent findMaxWidthU32 findMaxWidthRGBA
    findMaxHeightU32 findMaxHeightRGBA
  rw [hpk, findMaxWidthGo_lock hb x y hcb hy 1 w le_rfl,
    findMaxHeightGo_lock hb x y hcb 1 _ h le_rfl
      (findMaxWidthGo_le g x y (g y x) w 1 (by omega)),
    expandBlock_lock hb u x y _ _ _ w h le_rfl le_rfl hcb
      (findMaxWidthGo_le g x y (g y x) w 1 (by omega))
      (findMaxHeightGo_le g x y (g y x) _ h 1 (by omega))]

lemma fobGo_lock {g : Grid} {w h : Nat} (hb : OpaqueGrid g w h) :
    ∀ y x u acc,
      fobGoU32 (packGrid g) w h y x u (acc.map Block.toRGB) =
        (fobGo g w h y x u acc).map Block.toRGB := by
  intro y x u acc
  induction y, x, u, acc using fobGo.induct g w h with
  | case1 y x u acc hy =>
    rw [fobGo, dif_pos hy, fobGoU32, dif_pos hy]
  | case2 y x u acc hy hx ih =>
    rw [fobGo, dif_neg hy, dif_pos hx, fobGoU32, dif_neg hy, dif_pos hx]
    exact ih
  | case3 y x u acc hy hx hu ih =>
    rw [fobGo, dif_neg hy, dif_neg hx, dif_pos hu,
      fobGoU32, dif_neg hy, dif_neg hx, dif_pos hu]
    exact ih
  | case4 y x u acc hy hx hu ha ih =>
    exact absurd ((hb y x (by omega) (by omega)).2.2.2) (by omega)
  | case5 y x u acc hy hx hu ha ih =>
    rw [fobGo, dif_neg hy, dif_neg hx, dif_neg hu, dif_neg ha,
      fobGoU32, dif_neg hy, dif_neg hx, dif_neg hu]
    rw [seedExtent_lock hb u (by omega) (by omega)]
    have hcb := hb y x (by omega) (by omega)
    have hup := packRGB_unpack (g y x) hcb.1 hcb.2.1 hcb.2.2.1
    have hpx : packGrid g y x = packRGB (g y x) := rfl
    rw [hpx, hup.1, hup.2.1, hup.2.2]
    simpa [Block.toRGB] using ih

/-! ### Serializer lemmas -/

/-- Character-wise occurrence of `pat` inside `s`. -/
def strOccurs (pat s : String) : Prop :=
  pat.data <:+: s.data

instance (pat s : String) : Decidable (strOccurs pat s) := by
  unfold strOccurs
  exact List.decidableInfix pat.data s.data

lemma strOccurs_mono_left (pat s t : String) (hs : strOccurs pat s) :
    strOccurs pat (t ++ s) := by
  obtain ⟨a, b, hab⟩ := hs
  exact ⟨t.data ++ a, b, by rw [String.data_append, ← hab]; simp⟩

lemma strOccurs_mono_right (pat s t : String) (hs : strOccurs pat s) :
    strOccurs pat (s ++ t) := by
  obtain ⟨a, b, hab⟩ := hs
  exact ⟨a, b ++ t.data, by rw [String.data_append, ← hab]; simp⟩

lemma not_strOccurs_of_char (pat s : String) (c : Char)
    (hc : c ∈ pat.data) (hs : c ∉ s.data) : ¬ strOccurs pat s :=
  fun hocc => hs (hocc.subset hc)

/-- The ten decimal digit characters. -/
def decDigits : List Char :=
  (List.range 10).map Nat.digitChar

lemma digitChar_mem (m : Nat) (hm : m < 10) : Nat.digitChar m ∈ decDigits := by
  interval_cases m <;> decide

lemma toDigitsCore_chars :
    ∀ (fuel n : Nat) (acc : List Char), (∀ ch ∈ acc, ch ∈ decDigits) →
      ∀ ch ∈ Nat.toDigitsCore 10 fuel n acc, ch ∈ decDigits := by
  intro fuel
  induction fuel with
  | zero =>
    intro n acc hacc ch hch
    exact hacc ch hch
  | succ f ih =>
    intro n acc hacc ch hch
    rw [Nat.toDigitsCore] at hch
    have hcons : ∀ c ∈ Nat.digitChar (n % 10) :: acc, c ∈ decDigits := by
      intro c hc
      rcases List.mem_cons.1 hc with hc | hc
      · rw [hc]
        exact digitChar_mem _ (Nat.mod_lt _ (by norm_num))
      · exact hacc c hc
    split at hch
    · exact hcons ch hch
    · exact ih _ _ hcons ch hch

lemma itoa_chars (n : Nat) : ∀ ch ∈ (itoa n).data, ch ∈ decDigits := by
  intro ch hch
  unfold itoa Nat.repr at hch
  exact toDigitsCore_chars (n + 1) n [] (by intro c hc; cases hc) ch hch

/-- The characters hexChar can produce for a nibble. -/
def hexDigits : List Char :=
  (List.range 16).map Nat.digitChar

lemma hexChar_mem (b : Nat) (hb : b < 16) : hexChar b ∈ hexDigits := by
  interval_cases b <;> decide

lemma optimizeColor_chars (r g b : Nat) (hr : r ≤ 255) (hg : g ≤ 255) (hb : b ≤ 255) :
    ∀ ch ∈ (optimizeColor r g b).data, ch ∈ '#' :: hexDigits := by
  have hnib : ∀ v : Nat, v ≤ 255 → v >>> 4 < 16 := by
    intro v hv
    rw [Nat.shiftRight_eq_div_pow]
    omega
  have hlow : ∀ v : Nat, v &&& 15 < 16 := by
    intro v
    have := Nat.and_le_right (n := v) (m := 15)
    omega
  intro ch hch
  unfold optimizeColor at hch
  split at hch
  · have hch2 : ch ∈ ['#', hexChar (r >>> 4), hexChar (g >>> 4), hexChar (b >>> 4)] := hch
    simp only [List.mem_cons, List.not_mem_nil, or_false] at hch2
    rcases hch2 with hc | hc | hc | hc
    · rw [hc]
      decide
    · rw [hc]
      exact List.mem_cons_of_mem _ (hexChar_mem _ (hnib r hr))
    · rw [hc]
      exact List.mem_cons_of_mem _ (hexChar_mem _ (hnib g hg))
    · rw [hc]
      exact List.mem_cons_of_mem _ (hexChar_mem _ (hnib b hb))
  · have hch2 : ch ∈ ['#', hexChar (r >>> 4), hexChar (r &&& 15), hexChar (g >>> 4),
        hexChar (g &&& 15), hexChar (b >>> 4), hexChar (b &&& 15)] := hch
    simp only [List.mem_cons, List.not_mem_nil, or_false] at hch2
    rcases hch2 with hc | hc | hc | hc | hc | hc | hc
    · rw [hc]
      decide
    · rw [hc]
      exact List.mem_cons_of_mem _ (hexChar_mem _ (hnib r hr))
    · rw [hc]
      exact List.mem_cons_of_mem _ (hexChar_mem _ (hlow r))
    · rw [hc]
      exact List.mem_cons_of_mem _ (hexChar_mem _ (hnib g hg))
    · rw [hc]
      exact List.mem_cons_of_mem _ (hexChar_mem _ (hlow g))
    · rw [hc]
      exact List.mem_cons_of_mem _ (hexChar_mem _ (hnib b hb))
    · rw [hc]
      exact List.mem_cons_of_mem _ (hexChar_mem _ (hlow b))

lemma chars_append (s t : String) (P : Char → Prop)
    (hs : ∀ ch ∈ s.data, P ch) (ht : ∀ ch ∈ t.data, P ch) :
    ∀ ch ∈ (s ++ t).data, P ch := by
  intro ch hch
  rw [String.data_append] at hch
  rcases List.mem_append.1 hch with hm | hm
  · exact hs ch hm
  · exact ht ch hm

/-- Every character the opaque-block serialization can contain. -/
def svgRectChars : List Char :=
  ['<', 'r', 'e', 'c', 't', ' ', 'x', '=', '"', 'y', 'w', 'i', 'd', 'h', 'g',
    'f', 'l', '/', '>', '#', '0', '1', '2', '3', '4', '5', '6', '7', '8', '9', 'a', 'b']

lemma decDigits_sub : ∀ ch ∈ decDigits, ch ∈ svgRectChars := by
  decide

lemma hexHash_sub : ∀ ch ∈ '#' :: hexDigits, ch ∈ svgRectChars := by
  decide

lemma writeBlock_full_alpha_chars (b : Block)
    (hr : b.R ≤ 255) (hg : b.G ≤ 255) (hbb : b.B ≤ 255) (hA : b.A = 255) :
    ∀ ch ∈ (writeBlock b).data, ch ∈ svgRectChars := by
  unfold writeBlock
  rw [if_neg (by omega), if_neg (by omega)]
  refine chars_append _ _ _ ?_ (by decide)
  refine chars_append _ _ _ ?_ (by intro ch hch; cases hch)
  refine chars_append _ _ _ ?_
    (fun ch hch => hexHash_sub ch (optimizeColor_chars b.R b.G b.B hr hg hbb ch hch))
  refine chars_append _ _ _ ?_ (by decide)
  refine chars_append _ _ _ ?_ (fun ch hch => decDigits_sub ch (itoa_chars b.Height ch hch))
  refine chars_append _ _ _ ?_ (by decide)
  refine chars_append _ _ _ ?_ (fun ch hch => decDigits_sub ch (itoa_chars b.Width ch hch))
  refine chars_append _ _ _ ?_ (by decide)
  refine chars_append _ _ _ ?_ (fun ch hch => decDigits_sub ch (itoa_chars b.Y ch hch))
  refine chars_append _ _ _ ?_ (by decide)
  exact chars_append _ _ _ (by decide) (fun ch hch => decDigits_sub ch (itoa_chars b.X ch hch))

lemma writeBlock_full_alpha_no_opacity (b : Block)
    (hr : b.R ≤ 255) (hg : b.G ≤ 255) (hbb : b.B ≤ 255) (hA : b.A = 255) :
    ¬ strOccurs "fill-opacity" (writeBlock b) := by
  refine not_strOccurs_of_char _ _ 'p' (by decide) ?_
  intro hmem
  have := writeBlock_full_alpha_chars b hr hg hbb hA 'p' hmem
  revert this
  decide

lemma writeBlock_mid_alpha_opacity (b : Block) (h0 : b.A ≠ 0) (h255 : b.A < 255) :
    strOccurs "fill-opacity" (writeBlock b) := by
  unfold writeBlock
  rw [if_neg h0, if_pos h255]
  apply strOccurs_mono_right
  apply strOccurs_mono_left
  apply strOccurs_mono_right
  decide

/-! ### Scan lemmas for the special grids of the testable properties -/

lemma fobGo_transparent (g : Grid) (w h : Nat)
    (hg : ∀ j i, j < h → i < w → (g j i).A = 0) :
    ∀ y x u acc, fobGo g w h y x u acc = acc := by
  intro y x u acc
  induction y, x, u, acc using fobGo.induct g w h with
  | case1 y x u acc hy =>
    rw [fobGo, dif_pos hy]
  | case2 y x u acc hy hx ih =>
    rw [fobGo, dif_neg hy, dif_pos hx]
    exact ih
  | case3 y x u acc hy hx hu ih =>
    rw [fobGo, dif_neg hy, dif_neg hx, dif_pos hu]
    exact ih
  | case4 y x u acc hy hx hu ha ih =>
    rw [fobGo, dif_neg hy, dif_neg hx, dif_neg hu, dif_pos ha]
    exact ih
  | case5 y x u acc hy hx hu ha ih =>
    exact absurd (hg y x (by omega) (by omega)) ha

lemma fobGo_allUsed (g : Grid) (w h : Nat) :
    ∀ y x u acc, (∀ j i, j < h → i < w → u j i = true) → fobGo g w h y x u acc = acc := by
  intro y x u acc
  induction y, x, u, acc using fobGo.induct g w h with
  | case1 y x u acc hy =>
    intro hall
    rw [fobGo, dif_pos hy]
  | case2 y x u acc hy hx ih =>
    intro hall
    rw [fobGo, dif_neg hy, dif_pos hx]
    exact ih hall
  | case3 y x u acc hy hx hu ih =>
    intro hall
    rw [fobGo, dif_neg hy, dif_neg hx, dif_pos hu]
    exact ih hall
  | case4 y x u acc hy hx hu ha ih =>
    intro hall
    exact absurd (hall y x (by omega) (by omega)) hu
  | case5 y x u acc hy hx hu ha ih =>
    intro hall
    exact absurd (hall y x (by omega) (by omega)) hu

lemma fobGo_length (g : Grid) (w h : Nat) :
    ∀ y x u acc, (fobGo g w h y x u acc).length ≤ acc.length + ((h - y) * w - min x w) := by
  intro y x u acc
  induction y, x, u, acc using fobGo.induct g w h with
  | case1 y x u acc hy =>
    rw [fobGo, dif_pos hy]
    have hy0 : h - y = 0 := by omega
    simp [hy0]
  | case2 y x u acc hy hx ih =>
    rw [fobGo, dif_neg hy, dif_pos hx]
    refine le_trans ih ?_
    have h1 : (h - y) * w = (h - (y + 1)) * w + w := by
      have hy1 : h - y = (h - (y + 1)) + 1 := by omega
      rw [hy1]
      ring
    omega
  | case3 y x u acc hy hx hu ih =>
    rw [fobGo, dif_neg hy, dif_neg hx, dif_pos hu]
    refine le_trans ih ?_
    omega
  | case4 y x u acc hy hx hu ha ih =>
    rw [fobGo, dif_neg hy, dif_neg hx, dif_neg hu, dif_pos ha]
    refine le_trans ih ?_
    omega
  | case5 y x u acc hy hx hu ha ih =>
    rw [fobGo, dif_neg hy, dif_neg hx, dif_neg hu, dif_neg ha]
    refine le_trans ih ?_
    rw [List.length_append]
    have hspec := seedExtent_spec g u w h x y (by omega) (by omega)
    have hTw : w ≤ (h - y) * w := Nat.le_mul_of_pos_left w (by omega)
    simp only [List.length_cons, List.length_nil]
    omega

lemma findMaxWidthGo_full (g : Grid) (y : Nat) (c : ColorRGBA) (maxX : Nat)
    (hrow : ∀ i, i < maxX → g y i = c) :
    ∀ x width, x + width ≤ maxX → findMaxWidthGo g x y c maxX width = maxX - x := by
  intro x width
  induction width using findMaxWidthGo.induct g x y c maxX with
  | case1 width hcond ih =>
    intro hle
    rw [findMaxWidthGo, dif_pos hcond]
    exact ih (by omega)
  | case2 width hcond =>
    intro hle
    rw [findMaxWidthGo, dif_neg hcond]
    by_cases hlt : x + width < maxX
    · exact absurd ⟨hlt, hrow _ (by omega)⟩ hcond
    · omega

lemma findMaxHeightGo_full (g : Grid) (x y : Nat) (c : ColorRGBA) (width maxY : Nat)
    (hcell : ∀ j i, j < maxY → i < width → g j (x + i) = c) :
    ∀ hgt, y + hgt ≤ maxY → findMaxHeightGo g x y c width maxY hgt = maxY - y := by
  intro hgt
  induction hgt using findMaxHeightGo.induct g x y c width maxY with
  | case1 hgt hcond ih =>
    intro hle
    rw [findMaxHeightGo, dif_pos hcond]
    exact ih (by omega)
  | case2 hgt hcond =>
    intro hle
    rw [findMaxHeightGo, dif_neg hcond]
    by_cases hlt : y + hgt < maxY
    · exact absurd ⟨hlt, fun i hi => hcell (y + hgt) i (by omega) hi⟩ hcond
    · omega

lemma fobGo_checkerboard (g : Grid) (w h : Nat)
    (hA1 : ∀ j i, j < h → i < w → (g j i).A = 255)
    (hadjH : ∀ j i, j < h → i + 1 < w → g j i ≠ g j (i + 1))
    (hadjV : ∀ j i, j + 1 < h → i < w → g j i ≠ g (j + 1) i) :
    ∀ y x u acc, y ≤ h → x ≤ w → (h ≤ y → x = 0) →
      (∀ j i, u j i = true ↔ (j < h ∧ i < w ∧ (j < y ∨ (j = y ∧ i < x)))) →
      acc.length = y * w + min x w →
      (∀ b ∈ acc, b.Width = 1 ∧ b.Height = 1) →
      (fobGo g w h y x u acc).length = h * w ∧
        ∀ b ∈ fobGo g w h y x u acc, b.Width = 1 ∧ b.Height = 1 := by
  intro y x u acc
  induction y, x, u, acc using fobGo.induct g w h with
  | case1 y x u acc hy =>
    intro hyh hxw hh0 huc hlen hblocks
    rw [fobGo, dif_pos hy]
    have hx0 : x = 0 := hh0 hy
    have hyeq : y = h := by omega
    subst hyeq hx0
    refine ⟨by rw [hlen]; simp, hblocks⟩
  | case2 y x u acc hy hx ih =>
    intro hyh hxw hh0 huc hlen hblocks
    rw [fobGo, dif_neg hy, dif_pos hx]
    have hxval : x = w := by omega
    refine ih (by omega) (by omega) (fun _ => rfl) ?_ ?_ hblocks
    · intro j i
      rw [huc j i]
      constructor
      · rintro ⟨hjh, hiw, hsc⟩
        exact ⟨hjh, hiw, by omega⟩
      · rintro ⟨hjh, hiw, hsc⟩
        exact ⟨hjh, hiw, by omega⟩
    · rw [hlen]
      have hr : (y + 1) * w = y * w + w := by ring
      omega
  | case3 y x u acc hy hx hu ih =>
    intro hyh hxw hh0 huc hlen hblocks
    have := (huc y x).1 hu
    omega
  | case4 y x u acc hy hx hu ha ih =>
    intro hyh hxw hh0 huc hlen hblocks
    have := hA1 y x (by omega) (by omega)
    omega
  | case5 y x u acc hy hx hu ha ih =>
    intro hyh hxw hh0 huc hlen hblocks
    rw [fobGo, dif_neg hy, dif_neg hx, dif_neg hu, dif_neg ha]
    have hseed : seedExtent g u w h x y = (1, 1) := by
      unfold seedExtent findMaxWidthRGBA findMaxHeightRGBA
      have hmw : findMaxWidthGo g x y (g y x) w 1 = 1 := by
        rw [findMaxWidthGo, dif_neg]
        rintro ⟨hlt, heq⟩
        exact hadjH y x (by omega) (by omega) heq.symm
      rw [hmw]
      have hmh : findMaxHeightGo g x y (g y x) 1 h 1 = 1 := by
        rw [findMaxHeightGo, dif_neg]
        rintro ⟨hlt, hall⟩
        have hv := hall 0 (by omega)
        rw [Nat.add_zero] at hv
        exact hadjV y x (by omega) (by omega) hv.symm
      rw [hmh]
      rw [expandBlockRGBA, dif_neg, dif_neg]
      · rintro ⟨hlt, hall⟩
        have hv := (hall 0 (by omega)).2
        rw [Nat.add_zero] at hv
        exact hadjV y x (by omega) (by omega) hv.symm
      · rintro ⟨hlt, hall⟩
        have hv := (hall 0 (by omega)).2
        rw [Nat.add_zero] at hv
        exact hadjH y x (by omega) (by omega) hv.symm
    simp only [hseed] at ih ⊢
    refine ih (by omega) (by omega) (fun hcon => absurd hcon hy) ?_ ?_ ?_
    · intro j i
      unfold markBlockUsed
      split
      · rename_i hcond
        constructor
        · intro _
          exact ⟨by omega, by omega, by omega⟩
        · intro _
          rfl
      · rename_i hcond
        rw [huc j i]
        constructor
        · rintro ⟨h1, h2, h3⟩
          exact ⟨h1, h2, by omega⟩
        · rintro ⟨h1, h2, h3⟩
          refine ⟨h1, h2, ?_⟩
          by_cases hji : j = y ∧ i = x
          · exact absurd (by omega) hcond
          · omega
    · rw [List.length_append, hlen]
      simp only [List.length_cons, List.length_nil]
      omega
    · intro b hb
      rcases List.mem_append.1 hb with hb | hb
      · exact hblocks b hb
      · have hbeq : b = ⟨x, y, 1, 1, (g y x).R, (g y x).G, (g y x).B, (g y x).A⟩ := by
          simpa using hb
        subst hbeq
        exact ⟨rfl, rfl⟩

/-! ### Claim theorems -/

/-- C1 counterexample grid: row 0 is A A B, row 1 is B B B, all opaque.
The scan emits (0,0,2,1) for the A-run, then (2,0,1,2) for the B-column,
but the row-1 seed's horizontal run (which never consults the used mask)
reaches the already-used cell (2,1), emitting (0,1,3,1). -/
def overlapGrid : Grid := fun y x =>
  if y = 0 ∧ x ≤ 1 then ⟨1, 1, 1, 255⟩ else ⟨2, 2, 2, 255⟩

/-- C1, counterexample: on `overlapGrid` (3 x 2, no transparent pixels) the
pixel (2,1) lies in two distinct emitted blocks, so the emitted block list
does not partition the grid and two emitted blocks overlap. -/
theorem findOptimalBlocks_overlap_cex :
    ∃ b1 ∈ findOptimalBlocks overlapGrid 3 2, ∃ b2 ∈ findOptimalBlocks overlapGrid 3 2,
      b1 ≠ b2 ∧ inBlock b1 2 1 ∧ inBlock b2 2 1 := by
  have heval : findOptimalBlocks overlapGrid 3 2 =
      [⟨0, 0, 2, 1, 1, 1, 1, 255⟩, ⟨2, 0, 1, 2, 2, 2, 2, 255⟩, ⟨0, 1, 3, 1, 2, 2, 2, 255⟩] := by
    rw [findOptimalBlocks_eval]
    decide
  rw [heval]
  exact ⟨⟨2, 0, 1, 2, 2, 2, 2, 255⟩, by decide, ⟨0, 1, 3, 1, 2, 2, 2, 255⟩, by decide,
    by decide, by decide, by decide⟩

/-- C1, amended: for every grid with `w, h ≥ 1`, the emitted blocks together
with the alpha-0 pixels cover the grid: every alpha-0 pixel lies in no
emitted block, and every pixel with nonzero alpha lies in at least one
emitted block.  (The original claim's uniqueness/no-overlap part is false:
see the counterexample.) -/
theorem findOptimalBlocks_covers (g : Grid) (w h : Nat) (hw : 1 ≤ w) (hh : 1 ≤ h) :
    ∀ i j, i < w → j < h →
      ((g j i).A = 0 → ∀ b ∈ findOptimalBlocks g w h, ¬ inBlock b i j) ∧
      ((g j i).A ≠ 0 → ∃ b ∈ findOptimalBlocks g w h, inBlock b i j) := by
  have hmain := fobGo_covers g w h 0 0 (fun _ _ => false) []
    (by intro i j hi hj hsc; exact absurd hsc (by omega))
    (by intro i j hi hj hused; exact Bool.noConfusion hused)
    (by intro b hb; cases hb)
  intro i j hi hj
  constructor
  · intro ha b hb hin
    have hcol := (hmain.1 b hb).1.2.2.2.2 i j hin
    have hAne := (hmain.1 b hb).2
    rw [hcol] at ha
    exact hAne ha
  · intro ha
    exact hmain.2 i j hi hj ha

/-- Witness grid for the amended C1 theorem. -/
def witCoverGrid : Grid := fun _ _ => ⟨3, 4, 5, 128⟩

theorem findOptimalBlocks_covers_witness :
    (1 : Nat) ≤ 2 ∧ (1 : Nat) ≤ 2 ∧
      ∀ i j, i < 2 → j < 2 →
        ((witCoverGrid j i).A = 0 → ∀ b ∈ findOptimalBlocks witCoverGrid 2 2, ¬ inBlock b i j) ∧
        ((witCoverGrid j i).A ≠ 0 → ∃ b ∈ findOptimalBlocks witCoverGrid 2 2, inBlock b i j) :=
  ⟨by decide, by decide, findOptimalBlocks_covers witCoverGrid 2 2 (by decide) (by decide)⟩

/-- C2: every block emitted by the RGBA engine has nonnegative origin,
extents at least 1, stays inside the `w x h` canvas, and every grid cell
inside its rectangle carries exactly the `(r,g,b,a)` recorded on the block. -/
theorem findOptimalBlocks_block_invariant (g : Grid) (w h : Nat) (b : Block)
    (hb : b ∈ findOptimalBlocks g w h) :
    0 ≤ b.X ∧ 0 ≤ b.Y ∧ 1 ≤ b.Width ∧ 1 ≤ b.Height ∧
      b.X + b.Width ≤ w ∧ b.Y + b.Height ≤ h ∧
      ∀ i j, b.X ≤ i → i < b.X + b.Width → b.Y ≤ j → j < b.Y + b.Height →
        g j i = ⟨b.R, b.G, b.B, b.A⟩ := by
  have hmain := fobGo_covers g w h 0 0 (fun _ _ => false) []
    (by intro i j hi hj hsc; exact absurd hsc (by omega))
    (by intro i j hi hj hused; exact Bool.noConfusion hused)
    (by intro b hb; cases hb)
  have hgood := (hmain.1 b hb).1
  exact ⟨Nat.zero_le _, Nat.zero_le _, hgood.1, hgood.2.1, hgood.2.2.1, hgood.2.2.2.1,
    fun i j h1 h2 h3 h4 => hgood.2.2.2.2 i j ⟨h1, h2, h3, h4⟩⟩

/-- Witness grid for the C2 theorem: a 2 x 1 grid with two different colors. -/
def witInvGrid : Grid := fun _ x => if x = 0 then ⟨9, 9, 9, 255⟩ else ⟨7, 7, 7, 255⟩

theorem findOptimalBlocks_block_invariant_witness :
    ∃ b ∈ findOptimalBlocks witInvGrid 2 1,
      0 ≤ b.X ∧ 0 ≤ b.Y ∧ 1 ≤ b.Width ∧ 1 ≤ b.Height ∧
        b.X + b.Width ≤ 2 ∧ b.Y + b.Height ≤ 1 ∧
        ∀ i j, b.X ≤ i → i < b.X + b.Width → b.Y ≤ j → j < b.Y + b.Height →
          witInvGrid j i = ⟨b.R, b.G, b.B, b.A⟩ := by
  have hmem : (⟨0, 0, 1, 1, 9, 9, 9, 255⟩ : Block) ∈ findOptimalBlocks witInvGrid 2 1 := by
    rw [findOptimalBlocks_eval]
    decide
  exact ⟨_, hmem, findOptimalBlocks_block_invariant witInvGrid 2 1 _ hmem⟩

/-- C3: a uniform `w x h` grid of one opaque color yields exactly the one
block `(0, 0, w, h)` carrying that color. -/
theorem uniform_grid_single_block (g : Grid) (w h : Nat) (c : ColorRGBA)
    (hw : 1 ≤ w) (hh : 1 ≤ h) (hA : c.A = 255)
    (hg : ∀ j i, j < h → i < w → g j i = c) :
    findOptimalBlocks g w h = [⟨0, 0, w, h, c.R, c.G, c.B, c.A⟩] := by
  have hc00 : g 0 0 = c := hg 0 0 (by omega) (by omega)
  have hseed : seedExtent g (fun _ _ => false) w h 0 0 = (w, h) := by
    unfold seedExtent findMaxWidthRGBA findMaxHeightRGBA
    have hmw : findMaxWidthGo g 0 0 (g 0 0) w 1 = w := by
      have := findMaxWidthGo_full g 0 (g 0 0) w
        (fun i hi => by rw [hg 0 i (by omega) hi, hc00]) 0 1 (by omega)
      simpa using this
    rw [hmw]
    have hmh : findMaxHeightGo g 0 0 (g 0 0) w h 1 = h := by
      have := findMaxHeightGo_full g 0 0 (g 0 0) w h
        (fun j i hj hi => by
          have hcell := hg j i hj (by omega)
          rw [Nat.zero_add, hcell, hc00]) 1 (by omega)
      simpa using this
    rw [hmh]
    rw [expandBlockRGBA, dif_neg, dif_neg]
    · rintro ⟨hlt, -⟩
      omega
    · rintro ⟨hlt, -⟩
      omega
  show fobGo g w h 0 0 (fun _ _ => false) [] = _
  rw [fobGo, dif_neg (by omega), dif_neg (by omega),
    dif_neg (show ¬ ((fun _ _ => false) : Mask) 0 0 = true from Bool.noConfusion),
    dif_neg (show ¬ (g 0 0).A = 0 from by rw [hc00]; omega)]
  simp only [hseed]
  have hall : ∀ j i, j < h → i < w →
      markBlockUsed h w (fun _ _ => false) 0 0 w h j i = true := by
    intro j i hj hi
    unfold markBlockUsed
    split
    · rfl
    · rename_i hcond
      exact absurd ⟨by omega, by omega, hj, by omega, by omega, hi⟩ hcond
  rw [fobGo_allUsed g w h 0 (0 + w) _ _ hall, hc00]
  simp

/-- Witness grid for the C3 theorem. -/
def witUniformGrid : Grid := fun _ _ => ⟨5, 6, 7, 255⟩

theorem uniform_grid_single_block_witness :
    (1 : Nat) ≤ 2 ∧ (1 : Nat) ≤ 3 ∧ (⟨5, 6, 7, 255⟩ : ColorRGBA).A = 255 ∧
      (∀ j i, j < 3 → i < 2 → witUniformGrid j i = ⟨5, 6, 7, 255⟩) ∧
      findOptimalBlocks witUniformGrid 2 3 = [⟨0, 0, 2, 3, 5, 6, 7, 255⟩] :=
  ⟨by decide, by decide, rfl, fun _ _ _ _ => rfl,
    uniform_grid_single_block witUniformGrid 2 3 ⟨5, 6, 7, 255⟩ (by decide) (by decide) rfl
      (fun _ _ _ _ => rfl)⟩

/-- C4: a grid whose cells are all alpha-0 produces no blocks, and
serializing the (empty) result is exactly header plus footer. -/
theorem transparent_grid_empty (g : Grid) (w h : Nat)
    (hg : ∀ j i, j < h → i < w → (g j i).A = 0) :
    findOptimalBlocks g w h = [] ∧
      WriteBlocks w h (findOptimalBlocks g w h) = writeHeader w h ++ writeFooter := by
  have hempty : findOptimalBlocks g w h = [] := fobGo_transparent g w h hg 0 0 _ []
  refine ⟨hempty, ?_⟩
  rw [hempty]
  unfold WriteBlocks
  have hjoin : String.join (([] : List Block).map writeBlock) = "" := rfl
  rw [hjoin, String.append_empty]

/-- Witness grid for the C4 theorem. -/
def witTranspGrid : Grid := fun _ _ => ⟨0, 0, 0, 0⟩

theorem transparent_grid_empty_witness :
    (∀ j i, j < 1 → i < 1 → (witTranspGrid j i).A = 0) ∧
      (findOptimalBlocks witTranspGrid 1 1 = [] ∧
        WriteBlocks 1 1 (findOptimalBlocks witTranspGrid 1 1) =
          writeHeader 1 1 ++ writeFooter) :=
  ⟨fun _ _ _ _ => rfl, transparent_grid_empty witTranspGrid 1 1 (fun _ _ _ _ => rfl)⟩

/-- C5: on a checkerboard of two distinct opaque colors (no two horizontally
or vertically adjacent cells equal) the engine returns exactly `w*h` blocks,
each 1 x 1. -/
theorem checkerboard_unit_blocks (g : Grid) (w h : Nat) (c1 c2 : ColorRGBA)
    (hw : 1 ≤ w) (hh : 1 ≤ h) (hne : c1 ≠ c2) (hA1 : c1.A = 255) (hA2 : c2.A = 255)
    (hcells : ∀ j i, j < h → i < w → g j i = c1 ∨ g j i = c2)
    (hadjH : ∀ j i, j < h → i + 1 < w → g j i ≠ g j (i + 1))
    (hadjV : ∀ j i, j + 1 < h → i < w → g j i ≠ g (j + 1) i) :
    (findOptimalBlocks g w h).length = w * h ∧
      ∀ b ∈ findOptimalBlocks g w h, b.Width = 1 ∧ b.Height = 1 := by
  have hA : ∀ j i, j < h → i < w → (g j i).A = 255 := by
    intro j i hj hi
    rcases hcells j i hj hi with hc | hc <;> rw [hc] <;> assumption
  have hmain := fobGo_checkerboard g w h hA hadjH hadjV 0 0 (fun _ _ => false) []
    (by omega) (by omega) (fun _ => rfl)
    (by
      intro j i
      constructor
      · intro hused
        exact Bool.noConfusion hused
      · rintro ⟨h1, h2, h3⟩
        exact absurd h3 (by omega))
    (by simp) (by intro b hb; cases hb)
  exact ⟨by rw [Nat.mul_comm]; exact hmain.1, hmain.2⟩

/-- Witness grid for the C5 theorem: a 2 x 2 black/white checkerboard. -/
def witCheckerGrid : Grid := fun y x =>
  if (x + y) % 2 = 0 then ⟨0, 0, 0, 255⟩ else ⟨255, 255, 255, 255⟩

theorem checkerboard_unit_blocks_witness :
    (1 : Nat) ≤ 2 ∧ (1 : Nat) ≤ 2 ∧
      (⟨0, 0, 0, 255⟩ : ColorRGBA) ≠ ⟨255, 255, 255, 255⟩ ∧
      (∀ j i, j < 2 → i < 2 →
        witCheckerGrid j i = ⟨0, 0, 0, 255⟩ ∨ witCheckerGrid j i = ⟨255, 255, 255, 255⟩) ∧
      (∀ j i, j < 2 → i + 1 < 2 → witCheckerGrid j i ≠ witCheckerGrid j (i + 1)) ∧
      (∀ j i, j + 1 < 2 → i < 2 → witCheckerGrid j i ≠ witCheckerGrid (j + 1) i) ∧
      ((findOptimalBlocks witCheckerGrid 2 2).length = 2 * 2 ∧
        ∀ b ∈ findOptimalBlocks witCheckerGrid 2 2, b.Width = 1 ∧ b.Height = 1) :=
  ⟨by decide, by decide, by decide,
    by intro j i hj hi; interval_cases j <;> interval_cases i <;> decide,
    by intro j i hj hi; have hi0 : i = 0 := (by omega); subst hi0; interval_cases j <;> decide,
    by intro j i hj hi; have hj0 : j = 0 := (by omega); subst hj0; interval_cases i <;> decide,
    checkerboard_unit_blocks witCheckerGrid 2 2 ⟨0, 0, 0, 255⟩ ⟨255, 255, 255, 255⟩
      (by decide) (by decide) (by decide) rfl rfl
      (by intro j i hj hi; interval_cases j <;> interval_cases i <;> decide)
      (by intro j i hj hi; have hi0 : i = 0 := (by omega); subst hi0; interval_cases j <;> decide)
      (by intro j i hj hi; have hj0 : j = 0 := (by omega); subst hj0; interval_cases i <;> decide)⟩

/-- C6: the decomposition engine is a total function of the grid — it is
defined by well-founded recursion accepted for every grid and every `w, h`
(each loop, including the greedy expansion loop of `expandBlockRGBA`, carries
a decreasing measure), and for every input it returns a block list of at most
`w*h` blocks.  No case can fail or diverge. -/
theorem findOptimalBlocks_total (g : Grid) (w h : Nat) :
    ∃ bs : List Block, findOptimalBlocks g w h = bs ∧ bs.length ≤ w * h := by
  refine ⟨findOptimalBlocks g w h, rfl, ?_⟩
  have hlen := fobGo_length g w h 0 0 (fun _ _ => false) []
  have hco : h * w = w * h := Nat.mul_comm h w
  simp only [List.length_nil, Nat.sub_zero, Nat.min_zero, Nat.zero_add] at hlen
  show (fobGo g w h 0 0 (fun _ _ => false) []).length ≤ w * h
  omega

/-- C7: the serializer's fill color (`optimizeColor`, used by `writeBlock`)
is the 3-digit shorthand (length 4 with the `#`) exactly when every channel's
high nibble equals its low nibble, and the 6-digit form (length 7) otherwise;
in particular `(0x11, 0x22, 0x33)` gives `#123` and `(0x12, 0x34, 0x56)`
gives `#123456`. -/
theorem optimizeColor_shorthand (r g b : Nat) :
    ((optimizeColor r g b).length = 4 ↔
      (r >>> 4 = r &&& 15 ∧ g >>> 4 = g &&& 15 ∧ b >>> 4 = b &&& 15)) ∧
    (¬(r >>> 4 = r &&& 15 ∧ g >>> 4 = g &&& 15 ∧ b >>> 4 = b &&& 15) →
      (optimizeColor r g b).length = 7) ∧
    optimizeColor 0x11 0x22 0x33 = "#123" ∧
    optimizeColor 0x12 0x34 0x56 = "#123456" := by
  refine ⟨?_, ?_, by decide, by decide⟩
  · unfold optimizeColor
    split
    · rename_i hcond
      exact iff_of_true rfl hcond
    · rename_i hcond
      refine iff_of_false ?_ hcond
      intro hlen
      exact absurd hlen (by simp)
  · intro hcond
    unfold optimizeColor
    rw [if_neg hcond]
    rfl

theorem optimizeColor_shorthand_witness :
    (((optimizeColor 16 2 3).length = 4 ↔
      (16 >>> 4 = 16 &&& 15 ∧ 2 >>> 4 = 2 &&& 15 ∧ 3 >>> 4 = 3 &&& 15)) ∧
    (¬(16 >>> 4 = 16 &&& 15 ∧ 2 >>> 4 = 2 &&& 15 ∧ 3 >>> 4 = 3 &&& 15) →
      (optimizeColor 16 2 3).length = 7) ∧
    optimizeColor 0x11 0x22 0x33 = "#123" ∧
    optimizeColor 0x12 0x34 0x56 = "#123456") :=
  optimizeColor_shorthand 16 2 3

/-- C8: for a block with genuine uint8 channels, the serialized element
carries a `fill-opacity` attribute exactly when alpha is neither 0 nor 255;
an alpha-0 block produces no element at all; and alpha 128 renders as the
3-decimal value `0.502`. -/
theorem writeBlock_opacity (b : Block)
    (hr : b.R ≤ 255) (hg : b.G ≤ 255) (hbb : b.B ≤ 255) (hA : b.A ≤ 255) :
    (strOccurs "fill-opacity" (writeBlock b) ↔ (b.A ≠ 0 ∧ b.A ≠ 255)) ∧
    (b.A = 0 → writeBlock b = "") ∧
    formatOpacity 128 = "0.502" ∧
    (b.A = 128 → strOccurs "fill-opacity=\"0.502\"" (writeBlock b)) := by
  have hzero : b.A = 0 → writeBlock b = "" := by
    intro h0
    unfold writeBlock
    rw [if_pos h0]
  refine ⟨?_, hzero, by decide, ?_⟩
  · constructor
    · intro hocc
      constructor
      · intro h0
        rw [hzero h0] at hocc
        exact absurd hocc (by decide)
      · intro h255
        exact absurd hocc (writeBlock_full_alpha_no_opacity b hr hg hbb h255)
    · rintro ⟨h0, h255⟩
      exact writeBlock_mid_alpha_opacity b h0 (by omega)
  · intro h128
    unfold writeBlock
    rw [if_neg (by omega), if_pos (by omega), h128, String.append_assoc]
    apply strOccurs_mono_left
    decide

theorem writeBlock_opacity_witness :
    (0 : Nat) ≤ 255 ∧
      ((strOccurs "fill-opacity" (writeBlock ⟨0, 0, 3, 4, 17, 34, 51, 128⟩) ↔
        ((⟨0, 0, 3, 4, 17, 34, 51, 128⟩ : Block).A ≠ 0 ∧
          (⟨0, 0, 3, 4, 17, 34, 51, 128⟩ : Block).A ≠ 255)) ∧
      ((⟨0, 0, 3, 4, 17, 34, 51, 128⟩ : Block).A = 0 →
        writeBlock ⟨0, 0, 3, 4, 17, 34, 51, 128⟩ = "") ∧
      formatOpacity 128 = "0.502" ∧
      ((⟨0, 0, 3, 4, 17, 34, 51, 128⟩ : Block).A = 128 →
        strOccurs "fill-opacity=\"0.502\"" (writeBlock ⟨0, 0, 3, 4, 17, 34, 51, 128⟩))) :=
  ⟨by decide,
    writeBlock_opacity ⟨0, 0, 3, 4, 17, 34, 51, 128⟩ (by decide) (by decide) (by decide)
      (by decide)⟩

/-- C9: the PixelGrid builder stores, at every coordinate of the `w x h`
row-major grid, the cell whose four 8-bit channels are the high bytes
(truncating `>> 8`, i.e. division by 256, not rounding) of the source's
16-bit channels. -/
theorem createColorGrid_quantizes (img : ImageSource) (w h x y : Nat)
    (hx : x < w) (hy : y < h)
    (hr : (img x y).1 ≤ 65535) (hg : (img x y).2.1 ≤ 65535)
    (hb : (img x y).2.2.1 ≤ 65535) (ha : (img x y).2.2.2 ≤ 65535) :
    (createColorGrid img w h).length = h ∧
    (∀ row ∈ createColorGrid img w h, row.length = w) ∧
    ((createColorGrid img w h).getD y []).getD x ⟨0, 0, 0, 0⟩ =
      ⟨(img x y).1 / 256, (img x y).2.1 / 256,
        (img x y).2.2.1 / 256, (img x y).2.2.2 / 256⟩ := by
  refine ⟨by simp [createColorGrid], ?_, ?_⟩
  · intro row hrow
    unfold createColorGrid at hrow
    rcases List.mem_map.1 hrow with ⟨yy, hyy, hrw⟩
    rw [← hrw]
    simp
  · have hrow : (createColorGrid img w h).getD y [] =
        (List.range w).map (fun x =>
          (⟨(img x y).1 >>> 8 % 256, (img x y).2.1 >>> 8 % 256,
            (img x y).2.2.1 >>> 8 % 256, (img x y).2.2.2 >>> 8 % 256⟩ : ColorRGBA)) := by
      unfold createColorGrid
      rw [List.getD_eq_getElem?_getD, List.getElem?_map, List.getElem?_range hy]
      rfl
    rw [hrow, List.getD_eq_getElem?_getD, List.getElem?_map, List.getElem?_range hx]
    simp only [Option.map_some', Option.getD_some, Nat.shiftRight_eq_div_pow, two_pow_8]
    congr 1 <;> omega

/-- Witness image for the C9 theorem. -/
def witImage : ImageSource := fun _ _ => (4660, 22136, 255, 65535)

theorem createColorGrid_quantizes_witness :
    (0 : Nat) < 2 ∧ (0 : Nat) < 1 ∧
      (witImage 0 0).1 ≤ 65535 ∧ (witImage 0 0).2.1 ≤ 65535 ∧
      (witImage 0 0).2.2.1 ≤ 65535 ∧ (witImage 0 0).2.2.2 ≤ 65535 ∧
      ((createColorGrid witImage 2 1).length = 1 ∧
        (∀ row ∈ createColorGrid witImage 2 1, row.length = 2) ∧
        ((createColorGrid witImage 2 1).getD 0 []).getD 0 ⟨0, 0, 0, 0⟩ =
          ⟨(witImage 0 0).1 / 256, (witImage 0 0).2.1 / 256,
            (witImage 0 0).2.2.1 / 256, (witImage 0 0).2.2.2 / 256⟩) :=
  ⟨by decide, by decide, by decide, by decide, by decide, by decide,
    createColorGrid_quantizes witImage 2 1 0 0 (by decide) (by decide) (by decide) (by decide)
      (by decide) (by decide)⟩

/-- C10: on a fully opaque grid (every pixel alpha 255, channels genuine
uint8), the historical packed-uint32 engine and the ColorRGBA engine produce
the same block sequence — the packed result is exactly the RGBA result with
the alpha forgotten, position by position — and packed-uint64 color equality
(`ToUint64`) coincides with structural RGBA equality. -/
theorem packed_engine_agrees (g : Grid) (w h : Nat) (hb : OpaqueGrid g w h) :
    findOptimalBlocksU32 (packGrid g) w h = (findOptimalBlocks g w h).map Block.toRGB ∧
    ∀ c1 c2 : ColorRGBA,
      (c1.R ≤ 255 ∧ c1.G ≤ 255 ∧ c1.B ≤ 255 ∧ c1.A ≤ 255) →
      (c2.R ≤ 255 ∧ c2.G ≤ 255 ∧ c2.B ≤ 255 ∧ c2.A ≤ 255) →
      (c1.ToUint64 = c2.ToUint64 ↔ c1 = c2) := by
  refine ⟨?_, fun c1 c2 b1 b2 => ToUint64_inj c1 c2 b1 b2⟩
  unfold findOptimalBlocksU32 findOptimalBlocks
  simpa using fobGo_lock hb 0 0 (fun _ _ => false) []

/-- Witness grid for the C10 theorem: a fully opaque 2 x 1 grid. -/
def witOpaqueGrid : Grid := fun _ x => if x = 0 then ⟨10, 20, 30, 255⟩ else ⟨40, 50, 60, 255⟩

theorem packed_engine_agrees_witness :
    OpaqueGrid witOpaqueGrid 2 1 ∧
      (findOptimalBlocksU32 (packGrid witOpaqueGrid) 2 1 =
          (findOptimalBlocks witOpaqueGrid 2 1).map Block.toRGB ∧
        ∀ c1 c2 : ColorRGBA,
          (c1.R ≤ 255 ∧ c1.G ≤ 255 ∧ c1.B ≤ 255 ∧ c1.A ≤ 255) →
          (c2.R ≤ 255 ∧ c2.G ≤ 255 ∧ c2.B ≤ 255 ∧ c2.A ≤ 255) →
          (c1.ToUint64 = c2.ToUint64 ↔ c1 = c2)) := by
  have hop : OpaqueGrid witOpaqueGrid 2 1 := by
    intro j i hj hi
    interval_cases j <;> interval_cases i <;>
      exact ⟨by decide, by decide, by decide, by decide⟩
  exact ⟨hop, packed_engine_agrees witOpaqueGrid 2 1 hop⟩
